import Mathlib

/-!
Verification of the bevy-craft voxel core against its specification.

The definitions below are a shallow embedding of the Rust sources under
`src/src/voxel/` (block model, chunk storage, world store, streaming
scheduler, raymarch, interaction, falling-block simulation) together with
the crate-level constants.  Machine integers (`i32`) are modelled as `Int`
(no arithmetic here ever approaches `i32` bounds), `f32` values are
modelled as exact rationals (`ℚ`), Rust `Vec` as `List`, and the hash
map/set/deque containers of the world store as lists with explicit
key-dedup insertion mirroring `HashMap`/`HashSet`/`VecDeque` semantics.
-/

namespace BevyCraft

attribute [local semireducible] Rat.mul Rat.inv Rat.add Rat.sub Rat.ofScientific

/-- Chunk side length in blocks (`CHUNK_SIZE` in `main.rs`). -/
def CHUNK_SIZE : Int := 16

/-- Block side length in world units.  Modelled from the spec: the crate
root of the final voxel revision is not under `src/` (only a superseded
monolithic snapshot `main.rs` is); the spec's raymarch example (§8) and the
repository's own unit tests (`interaction.rs`, `components.rs`) fix
`BLOCK_SIZE = 1`. -/
def BLOCK_SIZE : ℚ := 1

/-- Maximum chunk builds started per scheduling tick (`LOADS_PER_FRAME`). -/
def LOADS_PER_FRAME : Nat := 2

/-- Maximum simultaneously in-flight chunk builds (`MAX_IN_FLIGHT`). -/
def MAX_IN_FLIGHT : Nat := 8

/-- Number of streamed vertical chunk layers.  Modelled from the spec: the
crate-root constant `VERTICAL_CHUNK_LAYERS` is not under `src/`; the spec
fixes only that the streamed band is a fixed contiguous range of layers
starting at layer 0.  No claim below depends on the concrete value. -/
def VERTICAL_CHUNK_LAYERS : Int := 2

/-- Raymarch sampling distance in world units (`RAY_STEP` in `world.rs`). -/
def RAY_STEP : ℚ := 1/10

/-- Max interaction reach in block lengths (`RAY_MAX_DISTANCE_BLOCKS`). -/
def RAY_MAX_DISTANCE_BLOCKS : ℚ := 10

/-- Integer 3-vector (Bevy `IVec3` restricted to the operations used). -/
@[ext]
structure IVec3 where
  x : Int
  y : Int
  z : Int
deriving DecidableEq, Repr

instance : Add IVec3 := ⟨fun a b => ⟨a.x + b.x, a.y + b.y, a.z + b.z⟩⟩

instance : Sub IVec3 := ⟨fun a b => ⟨a.x - b.x, a.y - b.y, a.z - b.z⟩⟩

instance : Neg IVec3 := ⟨fun a => ⟨-a.x, -a.y, -a.z⟩⟩

/-- Rational 3-vector modelling Bevy `Vec3` (f32 triples) exactly. -/
@[ext]
structure Vec3q where
  x : ℚ
  y : ℚ
  z : ℚ
deriving DecidableEq, Repr

instance : Add Vec3q := ⟨fun a b => ⟨a.x + b.x, a.y + b.y, a.z + b.z⟩⟩

instance : Sub Vec3q := ⟨fun a b => ⟨a.x - b.x, a.y - b.y, a.z - b.z⟩⟩

instance : Neg Vec3q := ⟨fun a => ⟨-a.x, -a.y, -a.z⟩⟩

/-- Scale a rational vector by a scalar (Bevy `Vec3 * f32`). -/
def Vec3q.scale (v : Vec3q) (s : ℚ) : Vec3q := ⟨v.x * s, v.y * s, v.z * s⟩

/-- Cardinal 3D front orientation stored on direction-sensitive blocks. -/
inductive Facing where
  | PosX
  | NegX
  | PosY
  | NegY
  | PosZ
  | NegZ
deriving DecidableEq, Repr

/-- Resolve nearest cardinal 3D facing from a direction (`Facing::from_direction`). -/
def Facing.from_direction (d : Vec3q) : Facing :=
  if d.x * d.x + d.y * d.y + d.z * d.z = 0 then .PosZ
  else if |d.x| ≥ |d.y| ∧ |d.x| ≥ |d.z| then
    if d.x ≥ 0 then .PosX else .NegX
  else if |d.y| ≥ |d.x| ∧ |d.y| ≥ |d.z| then
    if d.y ≥ 0 then .PosY else .NegY
  else if d.z ≥ 0 then .PosZ
  else .NegZ

/-- Resolve nearest horizontal facing (`Facing::from_horizontal_direction`). -/
def Facing.from_horizontal_direction (d : Vec3q) : Facing :=
  if |d.x| ≥ |d.z| then
    if d.x ≥ 0 then .PosX else .NegX
  else if d.z ≥ 0 then .PosZ
  else .NegZ

/-- Return this facing as a world-space unit normal (`Facing::as_normal`). -/
def Facing.as_normal : Facing → IVec3
  | .PosX => ⟨1, 0, 0⟩
  | .NegX => ⟨-1, 0, 0⟩
  | .PosY => ⟨0, 1, 0⟩
  | .NegY => ⟨0, -1, 0⟩
  | .PosZ => ⟨0, 0, 1⟩
  | .NegZ => ⟨0, 0, -1⟩

/-- Semantic block kind (`BlockKind` in `block_chunk.rs`). -/
inductive BlockKind where
  | Air
  | Dirt
  | DirtWithGrass
  | Sand
deriving DecidableEq, Repr

/-- Voxel block state stored in chunk cells (`Block` in `block_chunk.rs`). -/
structure Block where
  kind : BlockKind
  front : Facing
deriving DecidableEq, Repr

/-- Texture ids from `material_catalog.rs`. -/
inductive TextureId where
  | GrassSide
  | GrassTop
  | Dirt
  | Sand
deriving DecidableEq, Repr

/-- Per-face texture assignment for one block definition (`FaceMaterials`). -/
structure FaceMaterials where
  top : TextureId
  bottom : TextureId
  front : TextureId
  back : TextureId
  side_left_right : TextureId
deriving DecidableEq, Repr

/-- Static per-kind block rules (`BlockDef` in `block_defs.rs`). -/
structure BlockDef where
  solid : Bool
  stable : Bool
  interactable : Bool
  allow_vertical_front : Bool
  materials : FaceMaterials
deriving DecidableEq, Repr

/-- Air block definition (`AIR_DEF`). -/
def AIR_DEF : BlockDef :=
  { solid := false, stable := false, interactable := false
    allow_vertical_front := false
    materials := ⟨.Dirt, .Dirt, .Dirt, .Dirt, .Dirt⟩ }

/-- Dirt block definition (`DIRT_DEF`). -/
def DIRT_DEF : BlockDef :=
  { solid := true, stable := true, interactable := true
    allow_vertical_front := true
    materials := ⟨.Dirt, .Dirt, .Dirt, .Dirt, .Dirt⟩ }

/-- Dirt-with-grass block definition (`DIRT_GRASS_DEF`). -/
def DIRT_GRASS_DEF : BlockDef :=
  { solid := true, stable := true, interactable := true
    allow_vertical_front := false
    materials := ⟨.GrassTop, .Dirt, .GrassSide, .GrassSide, .GrassSide⟩ }

/-- Sand block definition (`SAND_DEF`). -/
def SAND_DEF : BlockDef :=
  { solid := true, stable := false, interactable := true
    allow_vertical_front := true
    materials := ⟨.Sand, .Sand, .Sand, .Sand, .Sand⟩ }

/-- Resolve the static definition for one block kind (`def_for_block_kind`). -/
def def_for_block_kind : BlockKind → BlockDef
  | .Air => AIR_DEF
  | .Dirt => DIRT_DEF
  | .DirtWithGrass => DIRT_GRASS_DEF
  | .Sand => SAND_DEF

/-- Construct an air block (`Block::air`). -/
def Block.air : Block := ⟨.Air, .PosZ⟩

/-- Construct a plain dirt block (`Block::dirt`). -/
def Block.dirt : Block := ⟨.Dirt, .PosZ⟩

/-- Construct a dirt block with an explicit front (`Block::dirt_facing`). -/
def Block.dirt_facing (front : Facing) : Block := ⟨.Dirt, front⟩

/-- Construct a dirt-with-grass block (`Block::dirt_with_grass`). -/
def Block.dirt_with_grass : Block := ⟨.DirtWithGrass, .PosZ⟩

/-- Construct a dirt-with-grass block with explicit front. -/
def Block.dirt_with_grass_facing (front : Facing) : Block := ⟨.DirtWithGrass, front⟩

/-- Construct a sand block (`Block::sand`). -/
def Block.sand : Block := ⟨.Sand, .PosZ⟩

/-- Construct a sand block with an explicit front (`Block::sand_facing`). -/
def Block.sand_facing (front : Facing) : Block := ⟨.Sand, front⟩

/-- Return `true` if this block is air (`Block::is_air`). -/
def Block.is_air (b : Block) : Bool := b.kind = BlockKind.Air

/-- Return `true` if this block resists gravity (`Block::is_stable`). -/
def Block.is_stable (b : Block) : Bool := (def_for_block_kind b.kind).stable

/-- Return `true` if interaction can operate on it (`Block::is_interactable`). -/
def Block.is_interactable (b : Block) : Bool := (def_for_block_kind b.kind).interactable

/-- Return `true` if this block occupies space (`Block::is_solid`). -/
def Block.is_solid (b : Block) : Bool := (def_for_block_kind b.kind).solid

/-- Return a copy whose front matches a direction (`Block::with_front_from_direction`). -/
def Block.with_front_from_direction (b : Block) (direction : Vec3q) : Block :=
  let front :=
    if (def_for_block_kind b.kind).allow_vertical_front then
      Facing.from_direction direction
    else
      Facing.from_horizontal_direction direction
  match b.kind with
  | .Dirt => Block.dirt_facing front
  | .DirtWithGrass => Block.dirt_with_grass_facing front
  | .Sand => Block.sand_facing front
  | .Air => b

/-- Convert a block coordinate to its minimum corner (`Block::world_translation`). -/
def Block.world_translation (c : IVec3) : Vec3q :=
  ⟨c.x * BLOCK_SIZE, c.y * BLOCK_SIZE, c.z * BLOCK_SIZE⟩

/-- Convert a world position to a block coordinate (`Block::world_coord_from_position`). -/
def Block.world_coord_from_position (p : Vec3q) : IVec3 :=
  ⟨⌊p.x / BLOCK_SIZE⌋, ⌊p.y / BLOCK_SIZE⌋, ⌊p.z / BLOCK_SIZE⌋⟩

/-- Number of cells in one chunk (`CHUNK_SIZE^3` as a `Nat`). -/
def chunkVolume : Nat := 4096

/-- Pure voxel storage for one chunk: a flat `CHUNK_SIZE^3` array of blocks
in local chunk coordinates (`Chunk` in `block_chunk.rs`).  The length
invariant records that every constructor allocates exactly `SIDE³` cells,
matching the Rust `Vec` whose length never changes after construction. -/
structure Chunk where
  blocks : List Block
  size_ok : blocks.length = chunkVolume

/-- Convert local coordinates to the flat storage index (`Chunk::index`). -/
def Chunk.index (l : IVec3) : Nat :=
  (l.x + l.y * CHUNK_SIZE + l.z * CHUNK_SIZE * CHUNK_SIZE).toNat

/-- Return `true` if local coordinates are inside bounds (`Chunk::in_bounds`). -/
def Chunk.in_bounds (l : IVec3) : Bool :=
  decide (0 ≤ l.x ∧ l.x < CHUNK_SIZE ∧ 0 ≤ l.y ∧ l.y < CHUNK_SIZE ∧
    0 ≤ l.z ∧ l.z < CHUNK_SIZE)

/-- In-bounds local coordinates index inside the flat array. -/
theorem Chunk.index_lt_of_in_bounds {l : IVec3} (h : Chunk.in_bounds l = true) :
    Chunk.index l < chunkVolume := by
  simp only [Chunk.in_bounds, decide_eq_true_eq, CHUNK_SIZE] at h
  simp only [Chunk.index, chunkVolume, CHUNK_SIZE]
  omega

/-- Read a block at local coordinates; air when out of bounds (`Chunk::get_block`). -/
def Chunk.get_block (c : Chunk) (l : IVec3) : Block :=
  if h : Chunk.in_bounds l = true then
    c.blocks.get ⟨Chunk.index l, by rw [c.size_ok]; exact Chunk.index_lt_of_in_bounds h⟩
  else Block.air

/-- Write a block at local coordinates; out-of-bounds is a no-op (`Chunk::set_block`). -/
def Chunk.set_block (c : Chunk) (l : IVec3) (b : Block) : Chunk :=
  if Chunk.in_bounds l then
    ⟨c.blocks.set (Chunk.index l) b, by rw [List.length_set]; exact c.size_ok⟩
  else c

/-- Create an empty chunk filled with air (`Chunk::new_empty`). -/
def Chunk.new_empty : Chunk :=
  ⟨List.replicate chunkVolume Block.air, List.length_replicate chunkVolume Block.air⟩

/-- Convert a world block coordinate into `(chunk_coord, local_coord)` via
Euclidean division/remainder (`WorldState::world_to_chunk_local`). -/
def world_to_chunk_local (p : IVec3) : IVec3 × IVec3 :=
  (⟨p.x / CHUNK_SIZE, p.y / CHUNK_SIZE, p.z / CHUNK_SIZE⟩,
   ⟨p.x % CHUNK_SIZE, p.y % CHUNK_SIZE, p.z % CHUNK_SIZE⟩)

/-- Minimum block coordinate of a chunk: the integer (block-coordinate)
content of `Chunk::world_translation`, which scales this by `BLOCK_SIZE`. -/
def chunk_to_world (c : IVec3) : IVec3 :=
  ⟨c.x * CHUNK_SIZE, c.y * CHUNK_SIZE, c.z * CHUNK_SIZE⟩

/-- C1: for every world block coordinate `p` (negative components included),
`world_to_chunk_local p = (chunk, local)` satisfies
`chunk_to_world chunk + local = p` with every component of `local` in
`[0, CHUNK_SIZE)`, and conversely `world_to_chunk_local` inverts
`(chunk, local) ↦ chunk_to_world chunk + local` on in-bounds locals, so the
mapping is a bijection. -/
theorem C1_world_to_chunk_local_bijection :
    (∀ p : IVec3,
      chunk_to_world (world_to_chunk_local p).1 + (world_to_chunk_local p).2 = p ∧
      Chunk.in_bounds (world_to_chunk_local p).2 = true) ∧
    (∀ c l : IVec3, Chunk.in_bounds l = true →
      world_to_chunk_local (chunk_to_world c + l) = (c, l)) := by
  constructor
  · intro p
    constructor
    · show IVec3.mk _ _ _ = p
      simp only [world_to_chunk_local, chunk_to_world, CHUNK_SIZE]
      ext <;> simp <;> omega
    · simp only [world_to_chunk_local, Chunk.in_bounds, decide_eq_true_eq, CHUNK_SIZE]
      refine ⟨?_, ?_, ?_, ?_, ?_, ?_⟩ <;> omega
  · intro c l h
    simp only [Chunk.in_bounds, decide_eq_true_eq, CHUNK_SIZE] at h
    simp only [world_to_chunk_local, chunk_to_world, CHUNK_SIZE, HAdd.hAdd, Add.add]
    refine Prod.ext ?_ ?_ <;> ext <;> simp <;> omega

/-- C1 witness: the round trip evaluated at the concrete negative coordinate
`(-17, 5, -1)` and the inverse at `chunk = (-2, 0, -1)`, `local = (15, 5, 15)`. -/
theorem C1_world_to_chunk_local_bijection_witness :
    chunk_to_world (world_to_chunk_local ⟨-17, 5, -1⟩).1 +
      (world_to_chunk_local ⟨-17, 5, -1⟩).2 = ⟨-17, 5, -1⟩ ∧
    Chunk.in_bounds (world_to_chunk_local ⟨-17, 5, -1⟩).2 = true ∧
    world_to_chunk_local (chunk_to_world ⟨-2, 0, -1⟩ + ⟨15, 5, 15⟩) =
      (⟨-2, 0, -1⟩, ⟨15, 5, 15⟩) :=
  ⟨(C1_world_to_chunk_local_bijection.1 ⟨-17, 5, -1⟩).1,
   (C1_world_to_chunk_local_bijection.1 ⟨-17, 5, -1⟩).2,
   C1_world_to_chunk_local_bijection.2 ⟨-2, 0, -1⟩ ⟨15, 5, 15⟩ (by decide)⟩

/-- C2: for every chunk, local coordinate and block, an in-bounds write is
read back exactly (`get_block (set_block c l B) l = B`); an out-of-bounds
write is a no-op on the whole voxel array and an out-of-bounds read returns
the air block.  Both operations are total functions (no panic). -/
theorem C2_chunk_get_set_contract (c : Chunk) (l : IVec3) (b : Block) :
    (Chunk.in_bounds l = true →
      Chunk.get_block (Chunk.set_block c l b) l = b) ∧
    (Chunk.in_bounds l = false →
      Chunk.set_block c l b = c ∧ Chunk.get_block c l = Block.air) := by
  constructor
  · intro h
    simp [Chunk.set_block, Chunk.get_block, h]
  · intro h
    constructor
    · simp only [Chunk.set_block, h]
      simp
    · simp only [Chunk.get_block, h]
      simp

/-- C2 witness: the contract evaluated on the empty chunk at the in-bounds
local `(1, 2, 3)` with a dirt block, and at the out-of-bounds local
`(16, 0, 0)`. -/
theorem C2_chunk_get_set_contract_witness :
    Chunk.get_block (Chunk.set_block Chunk.new_empty ⟨1, 2, 3⟩ Block.dirt) ⟨1, 2, 3⟩ =
      Block.dirt ∧
    Chunk.set_block Chunk.new_empty ⟨16, 0, 0⟩ Block.dirt = Chunk.new_empty ∧
    Chunk.get_block Chunk.new_empty ⟨16, 0, 0⟩ = Block.air :=
  ⟨(C2_chunk_get_set_contract Chunk.new_empty ⟨1, 2, 3⟩ Block.dirt).1 (by decide),
   ((C2_chunk_get_set_contract Chunk.new_empty ⟨16, 0, 0⟩ Block.dirt).2 (by decide)).1,
   ((C2_chunk_get_set_contract Chunk.new_empty ⟨16, 0, 0⟩ Block.dirt).2 (by decide)).2⟩

/-- Build terrain for one chunk from the heightmap (`Chunk::new_terrain`).
The terrain height function (`TerrainNoise::height_at`, pure f32 noise) is an
external collaborator per the spec (§1, §6) and is taken as a parameter. -/
def Chunk.new_terrain (hAt : Int → Int → Int) (coord : IVec3) : Chunk :=
  let base_x := coord.x * CHUNK_SIZE
  let base_y := coord.y * CHUNK_SIZE
  let base_z := coord.z * CHUNK_SIZE
  (List.range 16).foldl (fun ch z =>
    (List.range 16).foldl (fun ch x =>
      let height := hAt (base_x + (x : Int)) (base_z + (z : Int))
      (List.range 16).foldl (fun ch y =>
        let world_y := base_y + (y : Int)
        if world_y > height then ch
        else
          ch.set_block ⟨(x : Int), (y : Int), (z : Int)⟩
            (if world_y = height then Block.dirt_with_grass else Block.dirt)) ch) ch)
    Chunk.new_empty

/-- Build terrain for streamed vertical layers, else empty (`Chunk::new_streaming`). -/
def Chunk.new_streaming (hAt : Int → Int → Int) (coord : IVec3) : Chunk :=
  if 0 ≤ coord.y ∧ coord.y < VERTICAL_CHUNK_LAYERS then Chunk.new_terrain hAt coord
  else Chunk.new_empty

/-- Find the value stored under a key in an association list (model of
`HashMap::get`). -/
def alistFind {α : Type} : List (IVec3 × α) → IVec3 → Option α
  | [], _ => none
  | p :: rest, k => if p.1 = k then some p.2 else alistFind rest k

/-- Return `true` when the association list holds the key (`HashMap::contains_key`). -/
def alistContains {α : Type} (l : List (IVec3 × α)) (k : IVec3) : Bool :=
  l.any (fun p => p.1 = k)

/-- Insert or replace a key's value (model of `HashMap::insert`). -/
def alistInsert {α : Type} (l : List (IVec3 × α)) (k : IVec3) (v : α) : List (IVec3 × α) :=
  if alistContains l k then l.map (fun p => if p.1 = k then (k, v) else p)
  else (k, v) :: l

/-- Remove a key from an association list (model of `HashMap::remove`). -/
def alistErase {α : Type} (l : List (IVec3 × α)) (k : IVec3) : List (IVec3 × α) :=
  l.filter (fun p => decide (p.1 ≠ k))

/-- Insert a coordinate into a key set (model of `HashMap`/`HashSet` key
insertion: a present key is replaced, so the key set is unchanged). -/
def keyInsert (k : IVec3) (l : List IVec3) : List IVec3 :=
  if k ∈ l then l else k :: l

/-- Runtime world state (`WorldState` in `world_state.rs`).  The loaded-chunk
map binds each coordinate to its voxel payload; the Bevy-side mesh and
entity handles of `ChunkData` carry no voxel content and are omitted.  The
in-flight map's task payload is a pure function of its coordinate
(`Chunk::new_streaming` plus meshing), so only its key set is modelled. -/
structure WorldState where
  chunks : List (IVec3 × Chunk)
  center : IVec3
  needed : List IVec3
  pending : List IVec3
  inFlight : List IVec3

/-- Construct an empty runtime world state (`WorldState::new`). -/
def WorldState.new : WorldState :=
  { chunks := [], center := ⟨-2147483648, -2147483648, -2147483648⟩
    needed := [], pending := [], inFlight := [] }

/-- Read a block at world coordinate; `none` when the containing chunk is not
loaded (`WorldState::get_block_world`). -/
def WorldState.get_block_world (s : WorldState) (p : IVec3) : Option Block :=
  (alistFind s.chunks (world_to_chunk_local p).1).map
    (fun ch => ch.get_block (world_to_chunk_local p).2)

/-- Set a block at a world coordinate if its chunk is loaded; return the
touched chunk coordinate on success (`WorldState::set_block_world_loaded`). -/
def WorldState.set_block_world_loaded (s : WorldState) (p : IVec3) (b : Block) :
    Option IVec3 × WorldState :=
  match alistFind s.chunks (world_to_chunk_local p).1 with
  | none => (none, s)
  | some ch =>
      (some (world_to_chunk_local p).1,
       { s with
          chunks := alistInsert s.chunks (world_to_chunk_local p).1
            (ch.set_block (world_to_chunk_local p).2 b) })

/-- Return `true` when the world coordinate holds a solid block
(`WorldState::is_solid_at_world_pos`). -/
def WorldState.is_solid_at_world_pos (s : WorldState) (p : IVec3) : Bool :=
  match s.get_block_world p with
  | some b => b.is_solid
  | none => false

/-- Ensure a chunk exists at a coordinate, generating it synchronously when
missing (`WorldState::ensure_chunk`; the render entity spawn is omitted). -/
def WorldState.ensure_chunk (hAt : Int → Int → Int) (s : WorldState) (coord : IVec3) :
    WorldState :=
  if alistContains s.chunks coord then s
  else { s with chunks := alistInsert s.chunks coord (Chunk.new_streaming hAt coord) }

/-- Ensure the containing chunk exists, then write the block
(`WorldState::set_block_world_ensured`). -/
def WorldState.set_block_world_ensured (hAt : Int → Int → Int) (s : WorldState)
    (p : IVec3) (b : Block) : Option IVec3 × WorldState :=
  let s1 := s.ensure_chunk hAt (world_to_chunk_local p).1
  s1.set_block_world_loaded p b

/-- Settle one falling block into the voxel world
(`WorldState::settle_falling_block`). -/
def WorldState.settle_falling_block (hAt : Int → Int → Int) (s : WorldState)
    (landing_block : IVec3) (b : Block) : Option IVec3 × WorldState :=
  s.set_block_world_ensured hAt landing_block b

/-- Return whether a block should detach and become a falling entity
(`should_start_falling` in `systems/falling.rs`). -/
def should_start_falling (s : WorldState) (world_pos : IVec3) (block : Block) : Bool :=
  if !block.is_solid || block.is_stable then false
  else
    let below := world_pos + ⟨0, -1, 0⟩
    decide (0 ≤ below.y) && !(s.is_solid_at_world_pos below)

/-- C4 (amended): a solid, unstable block whose directly-below cell is empty
is classified as a falling candidate provided the below cell's y-coordinate
is nonnegative; under that same proviso a Sand block over an empty cell is a
candidate, while a Dirt block never is, at any coordinates. -/
theorem C4_falling_candidate_classification :
    (∀ (s : WorldState) (pos : IVec3) (b : Block),
      b.is_solid = true → b.is_stable = false →
      0 ≤ (pos + ⟨0, -1, 0⟩).y →
      s.is_solid_at_world_pos (pos + ⟨0, -1, 0⟩) = false →
      should_start_falling s pos b = true) ∧
    (∀ (s : WorldState) (pos : IVec3) (front : Facing),
      0 ≤ (pos + ⟨0, -1, 0⟩).y →
      s.is_solid_at_world_pos (pos + ⟨0, -1, 0⟩) = false →
      should_start_falling s pos (Block.sand_facing front) = true) ∧
    (∀ (s : WorldState) (pos : IVec3) (front : Facing),
      should_start_falling s pos (Block.dirt_facing front) = false) := by
  refine ⟨?_, ?_, ?_⟩
  · intro s pos b hsolid hstable hy hempty
    simp [should_start_falling, hsolid, hstable, hy, hempty]
  · intro s pos front hy hempty
    simp [should_start_falling, Block.sand_facing, Block.is_solid, Block.is_stable,
      def_for_block_kind, SAND_DEF, hy, hempty]
  · intro s pos front
    simp [should_start_falling, Block.dirt_facing, Block.is_solid, Block.is_stable,
      def_for_block_kind, DIRT_DEF]

/-- Chunk holding a single sand block at local `(0, 0, 0)`. -/
def sandAtOriginChunk : Chunk := Chunk.new_empty.set_block ⟨0, 0, 0⟩ Block.sand

/-- World with one loaded chunk at `(0, 0, 0)` whose cell `(0, 0, 0)` is sand. -/
def sandAtOriginWorld : WorldState :=
  { WorldState.new with chunks := [(⟨0, 0, 0⟩, sandAtOriginChunk)] }

/-- C4 counterexample: at world position `(0, 0, 0)` a sand block (solid,
unstable) sits over the empty cell `(0, -1, 0)`, yet `should_start_falling`
does not classify it for detachment — the code additionally requires the
below cell's y-coordinate to be nonnegative, so the claim's "no further
precondition on its coordinates" fails. -/
theorem C4_falling_candidate_counterexample :
    sandAtOriginWorld.get_block_world ⟨0, 0, 0⟩ = some Block.sand ∧
    Block.sand.is_solid = true ∧
    Block.sand.is_stable = false ∧
    sandAtOriginWorld.is_solid_at_world_pos ⟨0, -1, 0⟩ = false ∧
    should_start_falling sandAtOriginWorld ⟨0, 0, 0⟩ Block.sand = false := by
  refine ⟨?_, by decide, by decide, ?_, ?_⟩
  · decide
  · decide
  · decide

/-- World with one loaded all-air chunk at `(0, 0, 0)`. -/
def emptyOriginWorld : WorldState :=
  { WorldState.new with chunks := [(⟨0, 0, 0⟩, Chunk.new_empty)] }

/-- C4 witness: the amended classification applied at world position
`(0, 1, 0)` over the loaded empty origin chunk — sand is a candidate there
and dirt is not. -/
theorem C4_falling_candidate_classification_witness :
    should_start_falling emptyOriginWorld ⟨0, 1, 0⟩ (Block.sand_facing .PosZ) = true ∧
    should_start_falling emptyOriginWorld ⟨0, 1, 0⟩ (Block.dirt_facing .PosZ) = false :=
  ⟨C4_falling_candidate_classification.2.1 emptyOriginWorld ⟨0, 1, 0⟩ .PosZ
      (by decide) (by decide),
   C4_falling_candidate_classification.2.2 emptyOriginWorld ⟨0, 1, 0⟩ .PosZ⟩

/-- Number of raymarch samples: `(RAY_MAX_DISTANCE_BLOCKS * BLOCK_SIZE / RAY_STEP) as i32`
(the Rust `as i32` cast truncates; the value here is a positive integer). -/
def raymarchSteps : Nat := (⌊RAY_MAX_DISTANCE_BLOCKS * BLOCK_SIZE / RAY_STEP⌋).toNat

/-- Raymarch loop over the remaining sample indices, carrying `last_empty`
(the body of the `for i in 0..steps` loop of
`WorldState::raymarch_hit_and_last_empty`; `continue` becomes a tail call
and `break` returns the pair). -/
def raymarchAux (s : WorldState) (origin direction : Vec3q) :
    List Nat → Option IVec3 → Option IVec3 × Option IVec3
  | [], last_empty => (none, last_empty)
  | i :: rest, last_empty =>
    let position := origin + direction.scale ((i : ℚ) * RAY_STEP)
    let block_world := Block.world_coord_from_position position
    let (chunk_coord, local_coord) := world_to_chunk_local block_world
    match alistFind s.chunks chunk_coord with
    | none => raymarchAux s origin direction rest (some block_world)
    | some chunk_data =>
      if Chunk.in_bounds local_coord = false then
        raymarchAux s origin direction rest (some block_world)
      else if (chunk_data.get_block local_coord).is_solid then
        (some block_world, last_empty)
      else
        raymarchAux s origin direction rest (some block_world)

/-- Raymarch from an origin along a direction and return
`(first_solid_hit, last_empty_before_hit)`
(`WorldState::raymarch_hit_and_last_empty`). -/
def WorldState.raymarch_hit_and_last_empty (s : WorldState) (origin direction : Vec3q) :
    Option IVec3 × Option IVec3 :=
  raymarchAux s origin direction (List.range raymarchSteps) none

/-- Block coordinate of the i-th raymarch sample point. -/
def raySampleCoord (origin direction : Vec3q) (i : Nat) : IVec3 :=
  Block.world_coord_from_position (origin + direction.scale ((i : ℚ) * RAY_STEP))

/-- Whether the i-th raymarch sample resolves to a solid block: its chunk is
loaded, the local coordinate is in bounds, and the stored block is solid. -/
def raySampleSolid (s : WorldState) (origin direction : Vec3q) (i : Nat) : Bool :=
  let block_world := raySampleCoord origin direction i
  let (chunk_coord, local_coord) := world_to_chunk_local block_world
  match alistFind s.chunks chunk_coord with
  | none => false
  | some chunk_data => Chunk.in_bounds local_coord && (chunk_data.get_block local_coord).is_solid

/-- Unfold one raymarch step in terms of the sample-solidity predicate. -/
theorem raymarchAux_cons (s : WorldState) (o d : Vec3q) (i : Nat) (rest : List Nat)
    (le : Option IVec3) :
    raymarchAux s o d (i :: rest) le =
      if raySampleSolid s o d i then (some (raySampleCoord o d i), le)
      else raymarchAux s o d rest (some (raySampleCoord o d i)) := by
  show (match alistFind s.chunks (world_to_chunk_local (raySampleCoord o d i)).1 with
    | none => raymarchAux s o d rest (some (raySampleCoord o d i))
    | some chunk_data =>
      if Chunk.in_bounds (world_to_chunk_local (raySampleCoord o d i)).2 = false then
        raymarchAux s o d rest (some (raySampleCoord o d i))
      else if (chunk_data.get_block (world_to_chunk_local (raySampleCoord o d i)).2).is_solid then
        (some (raySampleCoord o d i), le)
      else raymarchAux s o d rest (some (raySampleCoord o d i))) = _
  cases h : alistFind s.chunks (world_to_chunk_local (raySampleCoord o d i)).1 with
  | none =>
      simp [raySampleSolid, h]
  | some chunk_data =>
      simp only [raySampleSolid, h]
      cases hb : Chunk.in_bounds (world_to_chunk_local (raySampleCoord o d i)).2 with
      | false => simp [hb]
      | true =>
          cases hs : (chunk_data.get_block (world_to_chunk_local (raySampleCoord o d i)).2).is_solid
            <;> simp [hb, hs]

/-- Raymarching a contiguous index range with no solid sample returns no hit
and records the final sample as `last_empty`. -/
theorem raymarchAux_range_none (s : WorldState) (o d : Vec3q) (b a : Nat)
    (le : Option IVec3)
    (h : ∀ j, a ≤ j → j < a + b → raySampleSolid s o d j = false) :
    raymarchAux s o d (List.range' a b) le =
      (none, if b = 0 then le else some (raySampleCoord o d (a + b - 1))) := by
  induction b generalizing a le with
  | zero => simp [raymarchAux]
  | succ n ih =>
      rw [List.range'_succ, raymarchAux_cons, h a (le_refl a) (by omega), if_neg (by simp)]
      rw [ih (a + 1) _ (fun j hj1 hj2 => h j (by omega) (by omega))]
      cases n with
      | zero => simp
      | succ m =>
          have h1 : ¬ ((m + 1 : Nat) = 0) := by omega
          have h2 : ¬ ((m + 1 + 1 : Nat) = 0) := by omega
          have he : a + 1 + (m + 1) - 1 = a + (m + 1 + 1) - 1 := by omega
          rw [if_neg h1, if_neg h2, he]

/-- Raymarching a contiguous index range whose first solid sample is `i0`
returns that sample as the hit and the preceding sample as `last_empty`. -/
theorem raymarchAux_range_found (s : WorldState) (o d : Vec3q) (b : Nat) (a i0 : Nat)
    (le : Option IVec3)
    (ha : a ≤ i0) (hi : i0 < a + b)
    (hs : raySampleSolid s o d i0 = true)
    (hmin : ∀ j, a ≤ j → j < i0 → raySampleSolid s o d j = false) :
    raymarchAux s o d (List.range' a b) le =
      (some (raySampleCoord o d i0),
       if i0 = a then le else some (raySampleCoord o d (i0 - 1))) := by
  induction b generalizing a le with
  | zero => omega
  | succ n ih =>
      rw [List.range'_succ, raymarchAux_cons]
      by_cases hcase : i0 = a
      · subst hcase
        rw [hs]
        simp
      · rw [hmin a (le_refl a) (by omega), if_neg (by simp)]
        rw [ih (a + 1) _ (by omega) (by omega) (fun j hj1 hj2 => hmin j (by omega) hj2)]
        by_cases h1 : i0 = a + 1
        · subst h1
          simp
        · rw [if_neg h1, if_neg hcase]

/-- World for the spec's raymarch example: one loaded, otherwise empty chunk
at chunk coordinate `(0, 0, 0)` with a solid dirt block at local `(3, 0, 0)`. -/
def raymarchExampleWorld : WorldState :=
  { WorldState.new with
    chunks := [(⟨0, 0, 0⟩, Chunk.new_empty.set_block ⟨3, 0, 0⟩ Block.dirt)] }

/-- C3: the raymarch samples the ray at the fixed step up to the fixed reach;
a sample whose chunk is unloaded, whose local coordinate is out of bounds, or
whose block is not solid only updates `last_empty`, and the first solid
sample is returned as the hit, stopping the march.  Concretely: if the first
solid sample index is `i0`, the result is that sample paired with the
previous sample (or `none` when `i0 = 0`); if no sample is solid the result
is no hit paired with the final sample.  In particular, for an otherwise
empty loaded chunk at `(0,0,0)` with dirt at local `(3,0,0)`, origin
`(0.5, 0.5, 0.5)` and direction `+X`, the result is
`(some (3,0,0), some (2,0,0))`. -/
theorem C3_raymarch_hit_and_last_empty :
    (∀ (s : WorldState) (o d : Vec3q) (i0 : Nat),
      i0 < raymarchSteps →
      raySampleSolid s o d i0 = true →
      (∀ j, j < i0 → raySampleSolid s o d j = false) →
      s.raymarch_hit_and_last_empty o d =
        (some (raySampleCoord o d i0),
         if i0 = 0 then none else some (raySampleCoord o d (i0 - 1)))) ∧
    (∀ (s : WorldState) (o d : Vec3q),
      (∀ j, j < raymarchSteps → raySampleSolid s o d j = false) →
      s.raymarch_hit_and_last_empty o d =
        (none, some (raySampleCoord o d (raymarchSteps - 1)))) ∧
    raymarchExampleWorld.raymarch_hit_and_last_empty ⟨1/2, 1/2, 1/2⟩ ⟨1, 0, 0⟩ =
      (some ⟨3, 0, 0⟩, some ⟨2, 0, 0⟩) := by
  refine ⟨?_, ?_, ?_⟩
  · intro s o d i0 h0 hs hmin
    rw [WorldState.raymarch_hit_and_last_empty, List.range_eq_range']
    exact raymarchAux_range_found s o d raymarchSteps 0 i0 none (Nat.zero_le i0)
      (by omega) hs (fun j _ hj => hmin j hj)
  · intro s o d h
    rw [WorldState.raymarch_hit_and_last_empty, List.range_eq_range']
    rw [raymarchAux_range_none s o d raymarchSteps 0 none
      (fun j _ hj => h j (by omega))]
    have : raymarchSteps ≠ 0 := by decide
    simp [this]
  · decide

/-- C3 witness: the general characterization applied to the example world at
first-solid index 25 (the only hypotheses-bearing conjunct, discharged on
concrete data). -/
theorem C3_raymarch_hit_and_last_empty_witness :
    raymarchExampleWorld.raymarch_hit_and_last_empty ⟨1/2, 1/2, 1/2⟩ ⟨1, 0, 0⟩ =
      (some (raySampleCoord ⟨1/2, 1/2, 1/2⟩ ⟨1, 0, 0⟩ 25),
       if 25 = 0 then none else some (raySampleCoord ⟨1/2, 1/2, 1/2⟩ ⟨1, 0, 0⟩ 24)) :=
  C3_raymarch_hit_and_last_empty.1 raymarchExampleWorld ⟨1/2, 1/2, 1/2⟩ ⟨1, 0, 0⟩ 25
    (by decide) (by decide) (by decide)

/-- Face classification used by face-material lookup (`FaceKind`). -/
inductive FaceKind where
  | Top
  | Bottom
  | Front
  | Back
  | SideLeftRight
deriving DecidableEq, Repr

/-- Return the texture id for one face class (`FaceMaterials::texture_for_face`). -/
def FaceMaterials.texture_for_face (m : FaceMaterials) : FaceKind → TextureId
  | .Top => m.top
  | .Bottom => m.bottom
  | .Front => m.front
  | .Back => m.back
  | .SideLeftRight => m.side_left_right

/-- Resolve the face class from a world normal and a block-local front
orientation (`face_kind_from_oriented_normal`). -/
def face_kind_from_oriented_normal (normal : IVec3) (front : Facing) : FaceKind :=
  let front_normal := front.as_normal
  if normal = front_normal then .Front
  else if normal = -front_normal then .Back
  else if normal.y > 0 then .Top
  else if normal.y < 0 then .Bottom
  else .SideLeftRight

/-- Resolve the face texture id for one block face (`texture_for_face`). -/
def texture_for_face (b : Block) (normal : IVec3) : TextureId :=
  ((def_for_block_kind b.kind).materials).texture_for_face
    (face_kind_from_oriented_normal normal b.front)

/-- Atlas tile index for one texture id (`atlas_tile_index`). -/
def atlas_tile_index : TextureId → Nat
  | .GrassSide => 0
  | .GrassTop => 1
  | .Dirt => 2
  | .Sand => 3

/-- Horizontal tile count of the atlas (`atlas_tiles_x`). -/
def atlas_tiles_x : ℚ := 4

/-- Whether a texture uses V-flipped UVs (`needs_v_flip`). -/
def needs_v_flip (t : TextureId) : Bool := t = TextureId.GrassSide

/-- UV payload for one quad face in vertex order (`FaceUv`). -/
structure FaceUv where
  uv0 : ℚ × ℚ
  uv1 : ℚ × ℚ
  uv2 : ℚ × ℚ
  uv3 : ℚ × ℚ
deriving DecidableEq, Repr

/-- Vertex payload for one quad face in vertex order (`FaceVertices`). -/
structure FaceVertices where
  v0 : Vec3q
  v1 : Vec3q
  v2 : Vec3q
  v3 : Vec3q
deriving DecidableEq, Repr

/-- Build UVs for one atlas tile (`BlockAtlas::face_uvs`). -/
def face_uvs (tile : Nat) : FaceUv :=
  let u0 : ℚ := tile / atlas_tiles_x
  let u1 : ℚ := (tile + 1) / atlas_tiles_x
  ⟨(u0, 0), (u0, 1), (u1, 1), (u1, 0)⟩

/-- Build UVs for one atlas tile with V flipped (`BlockAtlas::face_uvs_flipped_v`). -/
def face_uvs_flipped_v (tile : Nat) : FaceUv :=
  let u0 : ℚ := tile / atlas_tiles_x
  let u1 : ℚ := (tile + 1) / atlas_tiles_x
  ⟨(u0, 1), (u0, 0), (u1, 0), (u1, 1)⟩

/-- Resolve final face UVs for a block face (`BlockAtlas::face_uvs_for_face`). -/
def face_uvs_for_face (b : Block) (normal : IVec3) : FaceUv :=
  let texture := texture_for_face b normal
  let tile := atlas_tile_index texture
  if needs_v_flip texture then face_uvs_flipped_v tile else face_uvs tile

/-- Table row describing one cube face (`FaceDef` in `mesh_types.rs`; the
4-element corner array is modelled as four fields). -/
structure FaceDef where
  normal : IVec3
  neighbor : IVec3
  corner0 : IVec3
  corner1 : IVec3
  corner2 : IVec3
  corner3 : IVec3
deriving DecidableEq, Repr

/-- Static cube-face table (`FACE_DEFS`): +X, -X, +Y, -Y, +Z, -Z faces. -/
def FACE_DEFS : List FaceDef :=
  [⟨⟨1, 0, 0⟩, ⟨1, 0, 0⟩, ⟨1, 0, 0⟩, ⟨1, 1, 0⟩, ⟨1, 1, 1⟩, ⟨1, 0, 1⟩⟩,
   ⟨⟨-1, 0, 0⟩, ⟨-1, 0, 0⟩, ⟨0, 0, 1⟩, ⟨0, 1, 1⟩, ⟨0, 1, 0⟩, ⟨0, 0, 0⟩⟩,
   ⟨⟨0, 1, 0⟩, ⟨0, 1, 0⟩, ⟨0, 1, 0⟩, ⟨0, 1, 1⟩, ⟨1, 1, 1⟩, ⟨1, 1, 0⟩⟩,
   ⟨⟨0, -1, 0⟩, ⟨0, -1, 0⟩, ⟨0, 0, 1⟩, ⟨0, 0, 0⟩, ⟨1, 0, 0⟩, ⟨1, 0, 1⟩⟩,
   ⟨⟨0, 0, 1⟩, ⟨0, 0, 1⟩, ⟨1, 0, 1⟩, ⟨1, 1, 1⟩, ⟨0, 1, 1⟩, ⟨0, 0, 1⟩⟩,
   ⟨⟨0, 0, -1⟩, ⟨0, 0, -1⟩, ⟨0, 0, 0⟩, ⟨0, 1, 0⟩, ⟨1, 1, 0⟩, ⟨1, 0, 0⟩⟩]

/-- Raw mesh buffers assembled by the builder (`MeshData`). -/
structure MeshData where
  positions : List Vec3q
  normals : List Vec3q
  uvs : List (ℚ × ℚ)
  indices : List Nat
deriving DecidableEq, Repr

/-- Empty mesh buffers (the builder's initial state). -/
def emptyMeshData : MeshData := ⟨[], [], [], []⟩

/-- Convert an integer vector to a rational one (`IVec3::as_vec3`). -/
def ivec_as_vec3 (v : IVec3) : Vec3q := ⟨v.x, v.y, v.z⟩

/-- Append one quad face to mesh buffers as two indexed triangles
(`add_face` in `mesh/builder.rs`). -/
def add_face (m : MeshData) (vertices : FaceVertices) (uv : FaceUv) (normal : Vec3q) :
    MeshData :=
  let start := m.positions.length
  { positions := m.positions ++ [vertices.v0, vertices.v1, vertices.v2, vertices.v3]
    normals := m.normals ++ [normal, normal, normal, normal]
    uvs := m.uvs ++ [uv.uv0, uv.uv1, uv.uv2, uv.uv3]
    indices := m.indices ++ [start, start + 1, start + 2, start, start + 2, start + 3] }

/-- Expand unit-cube corners into world-space quad vertices for one cell
(the `FaceVertices([...])` argument built in `build_chunk_mesh_data`). -/
def face_vertices_at (local_coord : IVec3) (f : FaceDef) : FaceVertices :=
  let base := (ivec_as_vec3 local_coord).scale BLOCK_SIZE
  ⟨base + (ivec_as_vec3 f.corner0).scale BLOCK_SIZE,
   base + (ivec_as_vec3 f.corner1).scale BLOCK_SIZE,
   base + (ivec_as_vec3 f.corner2).scale BLOCK_SIZE,
   base + (ivec_as_vec3 f.corner3).scale BLOCK_SIZE⟩

/-- Process one face of one cell: cull it when the same-chunk neighbor is
solid, otherwise emit the quad (the inner `for face in FACE_DEFS` body). -/
def processFace (c : Chunk) (local_coord : IVec3) (b : Block) (m : MeshData)
    (face : FaceDef) : MeshData :=
  if (c.get_block (local_coord + face.neighbor)).is_solid then m
  else
    add_face m (face_vertices_at local_coord face) (face_uvs_for_face b face.normal)
      (ivec_as_vec3 face.normal)

/-- Process one cell: skip air, otherwise iterate the face table (the body
of the x/y/z loops in `build_chunk_mesh_data`). -/
def processCell (c : Chunk) (m : MeshData) (local_coord : IVec3) : MeshData :=
  let b := c.get_block local_coord
  if b.is_air then m
  else FACE_DEFS.foldl (processFace c local_coord b) m

/-- Loop counter values `0..CHUNK_SIZE` of the builder's `i32` loops. -/
def intRange16 : List Int := (List.range 16).map Int.ofNat

/-- Build mesh data for all visible faces in one chunk
(`build_chunk_mesh_data` in `mesh/builder.rs`). -/
def build_chunk_mesh_data (c : Chunk) : MeshData :=
  intRange16.foldl (fun m z =>
    intRange16.foldl (fun m y =>
      intRange16.foldl (fun m x =>
        processCell c m ⟨x, y, z⟩) m) m) emptyMeshData

/-- Cell coordinates in builder loop order (z outer, y middle, x inner). -/
def localsInOrder : List IVec3 :=
  intRange16.flatMap (fun z =>
    intRange16.flatMap (fun y =>
      intRange16.map (fun x => ⟨x, y, z⟩)))

/-- Faces emitted for one cell: none when the cell is air, otherwise the
face-table entries whose same-chunk neighbor is not solid. -/
def visibleFaceList (c : Chunk) (local_coord : IVec3) : List FaceDef :=
  if (c.get_block local_coord).is_air then []
  else FACE_DEFS.filter (fun f => !(c.get_block (local_coord + f.neighbor)).is_solid)

/-- All (cell, face) pairs the builder emits, in emission order. -/
def visiblePairs (c : Chunk) : List (IVec3 × FaceDef) :=
  localsInOrder.flatMap (fun l => (visibleFaceList c l).map (fun f => (l, f)))

/-- Emit one (cell, face) pair into the mesh buffers. -/
def stepPair (c : Chunk) (m : MeshData) (p : IVec3 × FaceDef) : MeshData :=
  add_face m (face_vertices_at p.1 p.2) (face_uvs_for_face (c.get_block p.1) p.2.normal)
    (ivec_as_vec3 p.2.normal)

/-- Index pattern of one quad: triangles (0,1,2) and (0,2,3) offset by the
first-vertex index. -/
def quadIndexPattern (s : Nat) : List Nat := [s, s + 1, s + 2, s, s + 2, s + 3]

/-- Folding a flattened list equals the nested fold. -/
theorem foldl_flatMap_eq {α β γ : Type} (L : List α) (g : α → List β)
    (f : γ → β → γ) (m : γ) :
    (L.flatMap g).foldl f m = L.foldl (fun m a => (g a).foldl f m) m := by
  induction L generalizing m with
  | nil => rfl
  | cons a L ih => rw [List.flatMap_cons, List.foldl_append, List.foldl_cons, ih]

/-- Folding the face table with culling equals folding the filtered faces. -/
theorem foldl_processFace_eq (c : Chunk) (l : IVec3) (b : Block) (L : List FaceDef)
    (m : MeshData) :
    L.foldl (processFace c l b) m =
      (L.filter (fun f => !(c.get_block (l + f.neighbor)).is_solid)).foldl
        (fun m f =>
          add_face m (face_vertices_at l f) (face_uvs_for_face b f.normal)
            (ivec_as_vec3 f.normal)) m := by
  induction L generalizing m with
  | nil => rfl
  | cons f L ih =>
      rw [List.foldl_cons, List.filter_cons]
      cases h : (c.get_block (l + f.neighbor)).is_solid with
      | true => simp [processFace, h, ih]
      | false => simp [processFace, h, ih]

/-- Processing one cell equals emitting its visible (cell, face) pairs. -/
theorem processCell_eq (c : Chunk) (m : MeshData) (l : IVec3) :
    processCell c m l = ((visibleFaceList c l).map (fun f => (l, f))).foldl (stepPair c) m := by
  rw [processCell, visibleFaceList]
  cases h : (c.get_block l).is_air with
  | true => simp [h]
  | false =>
      simp only [h, if_false, Bool.false_eq_true, List.foldl_map]
      exact foldl_processFace_eq c l (c.get_block l) FACE_DEFS m

/-- The chunk mesh builder equals the fold over its visible pairs. -/
theorem build_chunk_mesh_data_eq (c : Chunk) :
    build_chunk_mesh_data c = (visiblePairs c).foldl (stepPair c) emptyMeshData := by
  rw [visiblePairs, build_chunk_mesh_data, localsInOrder, foldl_flatMap_eq]
  simp only [foldl_flatMap_eq, List.foldl_map, processCell_eq]

/-- Emitting one pair appends exactly four vertex positions. -/
theorem stepPair_positions_length (c : Chunk) (m : MeshData) (p : IVec3 × FaceDef) :
    (stepPair c m p).positions.length = m.positions.length + 4 := by
  simp [stepPair, add_face]

/-- Folded emission appends four positions per pair. -/
theorem foldl_stepPair_positions_length (c : Chunk) (L : List (IVec3 × FaceDef))
    (m : MeshData) :
    (L.foldl (stepPair c) m).positions.length = m.positions.length + 4 * L.length := by
  induction L generalizing m with
  | nil => simp
  | cons p L ih =>
      rw [List.foldl_cons, ih, stepPair_positions_length, List.length_cons]
      omega

/-- Folded emission appends one flat normal four times per pair. -/
theorem foldl_stepPair_normals (c : Chunk) (L : List (IVec3 × FaceDef)) (m : MeshData) :
    (L.foldl (stepPair c) m).normals =
      m.normals ++ L.flatMap (fun p => List.replicate 4 (ivec_as_vec3 p.2.normal)) := by
  induction L generalizing m with
  | nil => simp
  | cons p L ih =>
      rw [List.foldl_cons, ih, List.flatMap_cons]
      show (m.normals ++ [_, _, _, _]) ++ _ = _
      rw [List.append_assoc]
      rfl

/-- Folded emission appends the quad index pattern per pair, offset by the
running vertex count. -/
theorem foldl_stepPair_indices (c : Chunk) (L : List (IVec3 × FaceDef)) (m : MeshData) :
    (L.foldl (stepPair c) m).indices =
      m.indices ++ (List.range L.length).flatMap
        (fun k => quadIndexPattern (m.positions.length + 4 * k)) := by
  induction L generalizing m with
  | nil => simp
  | cons p L ih =>
      rw [List.foldl_cons, ih, stepPair_positions_length]
      have h1 : (stepPair c m p).indices = m.indices ++ quadIndexPattern m.positions.length := by
        simp [stepPair, add_face, quadIndexPattern]
      rw [h1, List.append_assoc, List.length_cons, List.range_succ_eq_map,
        List.flatMap_cons, List.flatMap_map]
      have h2 : ∀ k : Nat,
          quadIndexPattern (m.positions.length + 4 + 4 * k) =
          quadIndexPattern (m.positions.length + 4 * (k + 1)) := by
        intro k
        have : m.positions.length + 4 + 4 * k = m.positions.length + 4 * (k + 1) := by omega
        rw [this]
      simp only [h2]
      have h3 : m.positions.length + 4 * 0 = m.positions.length := by omega
      rw [h3]

/-- Constructor form of the `Nat`-to-`Int` coercion. -/
theorem intOfNat_eq_cast (n : Nat) : Int.ofNat n = (n : Int) := rfl

/-- Membership in the builder's loop-counter range. -/
theorem mem_intRange16 (a : Int) : a ∈ intRange16 ↔ 0 ≤ a ∧ a < 16 := by
  simp only [intRange16, List.mem_map, List.mem_range, intOfNat_eq_cast]
  constructor
  · rintro ⟨n, hn, rfl⟩
    omega
  · intro h
    exact ⟨a.toNat, by omega, by omega⟩

/-- Cells in loop order are exactly the in-bounds local coordinates. -/
theorem mem_localsInOrder (l : IVec3) :
    l ∈ localsInOrder ↔ Chunk.in_bounds l = true := by
  simp only [localsInOrder, List.mem_flatMap, List.mem_map,
    Chunk.in_bounds, decide_eq_true_eq, CHUNK_SIZE, mem_intRange16]
  constructor
  · rintro ⟨z, hz, y, hy, x, hx, rfl⟩
    exact ⟨hx.1, hx.2, hy.1, hy.2, hz.1, hz.2⟩
  · rintro ⟨h1, h2, h3, h4, h5, h6⟩
    exact ⟨l.z, ⟨h5, h6⟩, l.y, ⟨h3, h4⟩, l.x, ⟨h1, h2⟩, rfl⟩

/-- An out-of-bounds read returns the air block. -/
theorem get_block_out_of_bounds (c : Chunk) (l : IVec3)
    (h : Chunk.in_bounds l = false) : c.get_block l = Block.air := by
  simp [Chunk.get_block, h]

/-- C10: the builder emits a face for a cell exactly when the cell's block is
non-air and the same-chunk neighbor in the face's direction (out-of-bounds
neighbors read as air) is not solid — so chunk-boundary faces of non-air
cells are always emitted; each emitted face contributes exactly four vertex
positions, four copies of one flat normal, and six indices forming the
triangles (0,1,2) and (0,2,3) relative to its first vertex. -/
theorem C10_mesh_builder_faces (c : Chunk) :
    (∀ (l : IVec3) (f : FaceDef),
      (l, f) ∈ visiblePairs c ↔
        (Chunk.in_bounds l = true ∧ (c.get_block l).is_air = false ∧
         f ∈ FACE_DEFS ∧ (c.get_block (l + f.neighbor)).is_solid = false)) ∧
    (build_chunk_mesh_data c).positions.length = 4 * (visiblePairs c).length ∧
    (build_chunk_mesh_data c).normals =
      (visiblePairs c).flatMap (fun p => List.replicate 4 (ivec_as_vec3 p.2.normal)) ∧
    (build_chunk_mesh_data c).indices =
      (List.range (visiblePairs c).length).flatMap (fun k => quadIndexPattern (4 * k)) ∧
    (∀ (l : IVec3) (f : FaceDef),
      Chunk.in_bounds l = true → (c.get_block l).is_air = false →
      f ∈ FACE_DEFS → Chunk.in_bounds (l + f.neighbor) = false →
      (l, f) ∈ visiblePairs c) := by
  have hchar : ∀ (l : IVec3) (f : FaceDef),
      (l, f) ∈ visiblePairs c ↔
        (Chunk.in_bounds l = true ∧ (c.get_block l).is_air = false ∧
         f ∈ FACE_DEFS ∧ (c.get_block (l + f.neighbor)).is_solid = false) := by
    intro l f
    simp only [visiblePairs, List.mem_flatMap, List.mem_map, Prod.mk.injEq]
    constructor
    · rintro ⟨l', hl', f', hf', rfl, rfl⟩
      rw [visibleFaceList] at hf'
      cases h : (c.get_block l').is_air with
      | true =>
          rw [h] at hf'
          simp at hf'
      | false =>
          rw [h] at hf'
          simp only [Bool.false_eq_true, if_false] at hf'
          rcases List.mem_filter.1 hf' with ⟨hmem, hpred⟩
          refine ⟨(mem_localsInOrder l').1 hl', rfl, hmem, ?_⟩
          revert hpred
          cases (c.get_block (l' + f'.neighbor)).is_solid <;> simp
    · rintro ⟨hb, hair, hfd, hsolid⟩
      refine ⟨l, (mem_localsInOrder l).2 hb, f, ?_, rfl, rfl⟩
      rw [visibleFaceList, hair]
      simp only [Bool.false_eq_true, if_false]
      exact List.mem_filter.2 ⟨hfd, by rw [hsolid]; rfl⟩
  refine ⟨hchar, ?_, ?_, ?_, ?_⟩
  · rw [build_chunk_mesh_data_eq, foldl_stepPair_positions_length]
    simp [emptyMeshData]
  · rw [build_chunk_mesh_data_eq, foldl_stepPair_normals]
    rfl
  · rw [build_chunk_mesh_data_eq, foldl_stepPair_indices]
    simp only [emptyMeshData, List.length_nil, List.nil_append, Nat.zero_add]
  · intro l f hb hair hfd hoob
    exact (hchar l f).2 ⟨hb, hair, hfd, by
      rw [get_block_out_of_bounds c _ hoob]; rfl⟩

/-- C10 witness: the boundary-face conjunct applied to the sand-at-origin
chunk with the -X face of cell (0,0,0), whose neighbor (-1,0,0) is out of
bounds, plus the iff conjunct instantiated there. -/
theorem C10_mesh_builder_faces_witness :
    (⟨0, 0, 0⟩, FaceDef.mk ⟨-1, 0, 0⟩ ⟨-1, 0, 0⟩ ⟨0, 0, 1⟩ ⟨0, 1, 1⟩ ⟨0, 1, 0⟩ ⟨0, 0, 0⟩) ∈
      visiblePairs sandAtOriginChunk :=
  (C10_mesh_builder_faces sandAtOriginChunk).2.2.2.2 ⟨0, 0, 0⟩
    (FaceDef.mk ⟨-1, 0, 0⟩ ⟨-1, 0, 0⟩ ⟨0, 0, 1⟩ ⟨0, 1, 1⟩ ⟨0, 1, 0⟩ ⟨0, 0, 0⟩)
    (by decide) (by decide) (by decide) (by decide)

/-- Max propagation nodes processed per frame (`MAX_PROPAGATION_STEPS_PER_FRAME`). -/
def MAX_PROPAGATION_STEPS_PER_FRAME : Nat := 256

/-- Dedup work queue of world positions needing support re-evaluation
(`FallingPropagationQueue` in `falling_state.rs`). -/
structure FallingPropagationQueue where
  pending : List IVec3
  scheduled : List IVec3

/-- Enqueue one world position unless already scheduled
(`FallingPropagationQueue::enqueue`). -/
def FallingPropagationQueue.enqueue (q : FallingPropagationQueue) (pos : IVec3) :
    FallingPropagationQueue :=
  if pos ∈ q.scheduled then q
  else { pending := q.pending ++ [pos], scheduled := pos :: q.scheduled }

/-- Enqueue one position and its four horizontal and one upward neighbors
(`FallingPropagationQueue::enqueue_with_neighbors`). -/
def FallingPropagationQueue.enqueue_with_neighbors (q : FallingPropagationQueue)
    (pos : IVec3) : FallingPropagationQueue :=
  (((((q.enqueue pos).enqueue (pos + ⟨1, 0, 0⟩)).enqueue
    (pos + ⟨-1, 0, 0⟩)).enqueue (pos + ⟨0, 1, 0⟩)).enqueue
    (pos + ⟨0, 0, 1⟩)).enqueue (pos + ⟨0, 0, -1⟩)

/-- Pop one pending position (`FallingPropagationQueue::pop`). -/
def FallingPropagationQueue.pop (q : FallingPropagationQueue) :
    Option (IVec3 × FallingPropagationQueue) :=
  match q.pending with
  | [] => none
  | pos :: rest =>
      some (pos, { pending := rest, scheduled := q.scheduled.filter (fun p => decide (p ≠ pos)) })

/-- Queue invariant: pending positions are distinct and all scheduled. -/
def QueueInv (q : FallingPropagationQueue) : Prop :=
  q.pending.Nodup ∧ ∀ p, p ∈ q.pending → p ∈ q.scheduled

/-- Enqueueing preserves the queue invariant. -/
theorem QueueInv_enqueue (q : FallingPropagationQueue) (pos : IVec3)
    (h : QueueInv q) : QueueInv (q.enqueue pos) := by
  rcases h with ⟨hnd, hsub⟩
  rw [FallingPropagationQueue.enqueue]
  by_cases hs : pos ∈ q.scheduled
  · rw [if_pos hs]
    exact ⟨hnd, hsub⟩
  · rw [if_neg hs]
    refine ⟨?_, ?_⟩
    · rw [List.nodup_append]
      exact ⟨hnd, List.nodup_singleton pos,
        fun a ha hb => hs (by rw [List.mem_singleton] at hb; exact hb ▸ hsub a ha)⟩
    · intro p hp
      rw [List.mem_append, List.mem_singleton] at hp
      rcases hp with hp | hp
      · exact List.mem_cons_of_mem pos (hsub p hp)
      · exact hp ▸ List.mem_cons_self pos q.scheduled

/-- Popping preserves the queue invariant. -/
theorem QueueInv_pop (q : FallingPropagationQueue) (pos : IVec3)
    (q' : FallingPropagationQueue) (h : QueueInv q)
    (hpop : q.pop = some (pos, q')) : QueueInv q' := by
  rcases h with ⟨hnd, hsub⟩
  rw [FallingPropagationQueue.pop] at hpop
  cases hq : q.pending with
  | nil => rw [hq] at hpop; exact absurd hpop (by simp)
  | cons p rest =>
      rw [hq] at hpop
      simp only [Option.some.injEq, Prod.mk.injEq] at hpop
      obtain ⟨h1, h2⟩ := hpop
      subst h1
      subst h2
      rw [hq] at hnd
      rcases List.nodup_cons.1 hnd with ⟨hnotin, hrest⟩
      refine ⟨hrest, fun a ha => ?_⟩
      rw [List.mem_filter]
      constructor
      · exact hsub a (by rw [hq]; exact List.mem_cons_of_mem _ ha)
      · simp only [decide_eq_true_eq]
        intro hc
        exact hnotin (hc ▸ ha)

/-- Runtime state for a block simulated as a falling entity (`FallingBlock`). -/
structure FallingBlock where
  block : Block
  velocity_y : ℚ
deriving DecidableEq, Repr

/-- Build falling-block state with zero initial velocity (`FallingBlock::new`). -/
def FallingBlock.new (b : Block) : FallingBlock := ⟨b, 0⟩

/-- One spawned falling-block scene entity: its transform translation plus
its `FallingBlock` component (mesh handle and name are render-side). -/
structure FallingEntity where
  translation : Vec3q
  falling : FallingBlock
deriving DecidableEq, Repr

/-- State touched by the falling-spawn system: voxel world, propagation
queue, and the set of live falling-block entities. -/
structure SimState where
  world : WorldState
  queue : FallingPropagationQueue
  falling : List FallingEntity

/-- Collect up to `fuel` queue positions whose block should start falling
(the first loop of `spawn_falling_blocks_system`). -/
def collectFallingSpawns (w : WorldState) :
    Nat → FallingPropagationQueue → List (IVec3 × Block) →
    FallingPropagationQueue × List (IVec3 × Block)
  | 0, q, acc => (q, acc)
  | fuel + 1, q, acc =>
    match q.pop with
    | none => (q, acc)
    | some (pos, q') =>
      match w.get_block_world pos with
      | none => collectFallingSpawns w fuel q' acc
      | some b =>
          if should_start_falling w pos b then
            collectFallingSpawns w fuel q' (acc ++ [(pos, b)])
          else
            collectFallingSpawns w fuel q' acc

/-- Entity spawned for one detached (position, block) pair: translation at
the cell's minimum corner, carrying the original block, zero velocity. -/
def entityOf (pb : IVec3 × Block) : FallingEntity :=
  ⟨Block.world_translation pb.1, FallingBlock.new pb.2⟩

/-- Detach one collected (position, block) pair: write air into the source
cell, spawn the falling entity, and re-propagate neighbors (the second loop
body of `spawn_falling_blocks_system`; mesh rebuild is render-side). -/
def detachOne (st : SimState) (pb : IVec3 × Block) : SimState :=
  match alistFind st.world.chunks (world_to_chunk_local pb.1).1 with
  | none => st
  | some chunk_data =>
      { world := { st.world with
          chunks := alistInsert st.world.chunks (world_to_chunk_local pb.1).1
            (chunk_data.set_block (world_to_chunk_local pb.1).2 Block.air) }
        queue := st.queue.enqueue_with_neighbors pb.1
        falling := st.falling ++ [entityOf pb] }

/-- The collected spawn list of one falling-spawn tick. -/
def toSpawn (st : SimState) : List (IVec3 × Block) :=
  (collectFallingSpawns st.world MAX_PROPAGATION_STEPS_PER_FRAME st.queue []).2

/-- Process the propagation queue and detach unstable positions
(`spawn_falling_blocks_system` in `systems/falling.rs`). -/
def spawn_falling_blocks_system (st : SimState) : SimState :=
  let out := collectFallingSpawns st.world MAX_PROPAGATION_STEPS_PER_FRAME st.queue []
  let st1 : SimState := { st with queue := out.1 }
  if out.2.isEmpty then st1
  else out.2.foldl detachOne st1

/-- Local coordinates produced by `world_to_chunk_local` are always in bounds. -/
theorem wtcl_local_in_bounds (p : IVec3) :
    Chunk.in_bounds (world_to_chunk_local p).2 = true := by
  simp only [world_to_chunk_local, Chunk.in_bounds, decide_eq_true_eq, CHUNK_SIZE]
  refine ⟨?_, ?_, ?_, ?_, ?_, ?_⟩ <;> omega

/-- The world-to-(chunk, local) mapping is injective. -/
theorem world_to_chunk_local_inj {p p' : IVec3}
    (h : world_to_chunk_local p = world_to_chunk_local p') : p = p' := by
  simp only [world_to_chunk_local, Prod.mk.injEq, IVec3.mk.injEq, CHUNK_SIZE] at h
  ext <;> omega

/-- In-bounds local coordinates with equal flat indices are equal. -/
theorem Chunk.index_inj {l l' : IVec3} (hl : Chunk.in_bounds l = true)
    (hl' : Chunk.in_bounds l' = true) (h : Chunk.index l = Chunk.index l') : l = l' := by
  simp only [Chunk.in_bounds, decide_eq_true_eq, CHUNK_SIZE] at hl hl'
  simp only [Chunk.index, CHUNK_SIZE] at h
  ext <;> omega

/-- Reading back an in-bounds write returns the written block. -/
theorem Chunk.get_block_set_block_same (c : Chunk) (l : IVec3) (b : Block)
    (h : Chunk.in_bounds l = true) : (c.set_block l b).get_block l = b := by
  simp [Chunk.set_block, Chunk.get_block, h]

/-- A write at one in-bounds cell leaves every other cell's read unchanged. -/
theorem Chunk.get_block_set_block_ne (c : Chunk) (l l' : IVec3) (b : Block)
    (hne : l ≠ l') (hl : Chunk.in_bounds l = true) :
    (c.set_block l b).get_block l' = c.get_block l' := by
  by_cases hl' : Chunk.in_bounds l' = true
  · have hidx : Chunk.index l ≠ Chunk.index l' :=
      fun hc => hne (Chunk.index_inj hl hl' hc)
    simp only [Chunk.set_block, Chunk.get_block, hl, hl', if_true, dite_true,
      List.get_eq_getElem]
    apply List.getElem_set_ne hidx
  · simp [Chunk.get_block, hl']

/-- Insertion stores the given value under the given key. -/
theorem alistFind_insert_self {α : Type} (l : List (IVec3 × α)) (k : IVec3) (v : α) :
    alistFind (alistInsert l k v) k = some v := by
  rw [alistInsert]
  by_cases hc : alistContains l k = true
  · rw [if_pos hc]
    induction l with
    | nil => simp [alistContains] at hc
    | cons p rest ih =>
        by_cases hp : p.1 = k
        · simp [alistFind, hp]
        · rw [List.map_cons, if_neg hp]
          rw [alistFind, if_neg hp]
          exact ih (by simpa [alistContains, hp] using hc)
  · rw [if_neg hc]
    simp [alistFind]

/-- Replacing the value under one key leaves other lookups unchanged. -/
theorem alistFind_map_replace {α : Type} (rest : List (IVec3 × α)) (k k' : IVec3)
    (v : α) (h : k' ≠ k) :
    alistFind (rest.map (fun p => if p.1 = k then (k, v) else p)) k' =
      alistFind rest k' := by
  induction rest with
  | nil => rfl
  | cons p rest ih =>
      rw [List.map_cons]
      by_cases hp : p.1 = k
      · rw [if_pos hp, alistFind, alistFind, if_neg (fun hk => h hk.symm),
          if_neg (by rw [hp]; exact fun hk => h hk.symm)]
        exact ih
      · rw [if_neg hp, alistFind, alistFind]
        by_cases hpk : p.1 = k'
        · rw [if_pos hpk, if_pos hpk]
        · rw [if_neg hpk, if_neg hpk]
          exact ih

/-- Insertion leaves lookups of other keys unchanged. -/
theorem alistFind_insert_ne {α : Type} (l : List (IVec3 × α)) (k k' : IVec3) (v : α)
    (h : k' ≠ k) : alistFind (alistInsert l k v) k' = alistFind l k' := by
  rw [alistInsert]
  by_cases hc : alistContains l k = true
  · rw [if_pos hc]
    exact alistFind_map_replace l k k' v h
  · rw [if_neg hc, alistFind, if_neg (fun hk : k = k' => h hk.symm)]

/-- Detaching a loaded position writes air at it and spawns its entity. -/
theorem detachOne_spec (st : SimState) (pb : IVec3 × Block)
    (h : (st.world.get_block_world pb.1).isSome = true) :
    (detachOne st pb).world.get_block_world pb.1 = some Block.air ∧
    (detachOne st pb).falling = st.falling ++ [entityOf pb] := by
  rw [WorldState.get_block_world] at h
  cases hfind : alistFind st.world.chunks (world_to_chunk_local pb.1).1 with
  | none => rw [hfind] at h; simp at h
  | some ch =>
      constructor
      · show (alistFind (detachOne st pb).world.chunks (world_to_chunk_local pb.1).1).map _ = _
        simp only [detachOne, hfind]
        rw [alistFind_insert_self]
        show some ((ch.set_block (world_to_chunk_local pb.1).2 Block.air).get_block
          (world_to_chunk_local pb.1).2) = some Block.air
        rw [Chunk.get_block_set_block_same _ _ _ (wtcl_local_in_bounds pb.1)]
      · simp only [detachOne, hfind]

/-- Detaching one position does not change reads at any other position. -/
theorem detachOne_get_ne (st : SimState) (pb : IVec3 × Block) (p' : IVec3)
    (hne : pb.1 ≠ p') :
    (detachOne st pb).world.get_block_world p' = st.world.get_block_world p' := by
  cases hfind : alistFind st.world.chunks (world_to_chunk_local pb.1).1 with
  | none => simp only [detachOne, hfind]
  | some ch =>
      simp only [detachOne, hfind]
      rw [WorldState.get_block_world, WorldState.get_block_world]
      by_cases hcc : (world_to_chunk_local p').1 = (world_to_chunk_local pb.1).1
      · rw [hcc, alistFind_insert_self, hfind]
        have hlc : (world_to_chunk_local pb.1).2 ≠ (world_to_chunk_local p').2 := by
          intro hc
          exact hne (world_to_chunk_local_inj (Prod.ext hcc.symm hc))
        show some ((ch.set_block (world_to_chunk_local pb.1).2 Block.air).get_block
          (world_to_chunk_local p').2) = some (ch.get_block (world_to_chunk_local p').2)
        rw [Chunk.get_block_set_block_ne ch _ _ _ hlc (wtcl_local_in_bounds pb.1)]
      · rw [alistFind_insert_ne _ _ _ _ hcc]

/-- Detaching leaves the queue's world untouched when the chunk is missing,
and in general only ever appends `entityOf pb` to the entity list. -/
theorem detachOne_falling (st : SimState) (pb : IVec3 × Block) :
    (detachOne st pb).falling = st.falling ∨
    (detachOne st pb).falling = st.falling ++ [entityOf pb] := by
  cases hfind : alistFind st.world.chunks (world_to_chunk_local pb.1).1 with
  | none => left; simp only [detachOne, hfind]
  | some ch => right; simp only [detachOne, hfind]

/-- Folding detachment over distinct loaded positions appends exactly their
entities, writes air at each of them, and changes no other cell. -/
theorem detach_fold_spec (L : List (IVec3 × Block)) :
    ∀ (st : SimState),
    (L.map Prod.fst).Nodup →
    (∀ pb ∈ L, (st.world.get_block_world pb.1).isSome = true) →
    ((L.foldl detachOne st).falling = st.falling ++ L.map entityOf) ∧
    (∀ pb ∈ L, (L.foldl detachOne st).world.get_block_world pb.1 = some Block.air) ∧
    (∀ p', (∀ pb ∈ L, pb.1 ≠ p') →
      (L.foldl detachOne st).world.get_block_world p' = st.world.get_block_world p') := by
  induction L with
  | nil => intro st _ _; simp
  | cons pb L ih =>
      intro st hnd hload
      rw [List.map_cons, List.nodup_cons] at hnd
      obtain ⟨hnotin, hnd2⟩ := hnd
      have hpb := hload pb (List.mem_cons_self pb L)
      have hd := detachOne_spec st pb hpb
      have hload2 : ∀ x ∈ L, ((detachOne st pb).world.get_block_world x.1).isSome = true := by
        intro x hx
        have hxne : pb.1 ≠ x.1 := by
          intro hc
          exact hnotin (hc ▸ List.mem_map_of_mem Prod.fst hx)
        rw [detachOne_get_ne st pb x.1 hxne]
        exact hload x (List.mem_cons_of_mem pb hx)
      obtain ⟨ih1, ih2, ih3⟩ := ih (detachOne st pb) hnd2 hload2
      refine ⟨?_, ?_, ?_⟩
      · rw [List.foldl_cons, ih1, hd.2, List.map_cons]
        simp
      · intro x hx
        rw [List.foldl_cons]
        rcases List.mem_cons.1 hx with hx | hx
        · subst hx
          rw [ih3 x.1 (fun y hy => by
            intro hc
            exact hnotin (hc ▸ List.mem_map_of_mem Prod.fst hy))]
          exact hd.1
        · exact ih2 x hx
      · intro p' hp'
        rw [List.foldl_cons, ih3 p' (fun y hy => hp' y (List.mem_cons_of_mem pb hy)),
          detachOne_get_ne st pb p' (hp' pb (List.mem_cons_self pb L))]

/-- Every collected spawn pair is read from the world and classified as a
falling candidate by `should_start_falling` at collection time. -/
theorem collectFallingSpawns_sound (w : WorldState) :
    ∀ (fuel : Nat) (q : FallingPropagationQueue) (acc : List (IVec3 × Block)),
    (∀ pb ∈ acc, w.get_block_world pb.1 = some pb.2 ∧
      should_start_falling w pb.1 pb.2 = true) →
    ∀ pb ∈ (collectFallingSpawns w fuel q acc).2,
      w.get_block_world pb.1 = some pb.2 ∧ should_start_falling w pb.1 pb.2 = true := by
  intro fuel
  induction fuel with
  | zero => intro q acc hacc; exact hacc
  | succ n ih =>
      intro q acc hacc
      cases hpop : q.pop with
      | none =>
          rw [collectFallingSpawns]
          simp only [hpop]
          exact hacc
      | some pq =>
          obtain ⟨pos, q'⟩ := pq
          rw [collectFallingSpawns]
          simp only [hpop]
          cases hgb : w.get_block_world pos with
          | none =>
              simp only [hgb]
              exact ih q' acc hacc
          | some b =>
              simp only [hgb]
              by_cases hs : should_start_falling w pos b = true
              · rw [if_pos hs]
                refine ih q' (acc ++ [(pos, b)]) ?_
                intro x hx
                rcases List.mem_append.1 hx with hx | hx
                · exact hacc x hx
                · rw [List.mem_singleton] at hx
                  subst hx
                  exact ⟨hgb, hs⟩
              · rw [if_neg hs]
                exact ih q' acc hacc

/-- Collected spawn positions are distinct when the pending queue holds
distinct positions. -/
theorem collectFallingSpawns_nodup (w : WorldState) :
    ∀ (fuel : Nat) (q : FallingPropagationQueue) (acc : List (IVec3 × Block)),
    q.pending.Nodup →
    (∀ pb ∈ acc, pb.1 ∉ q.pending) →
    (acc.map Prod.fst).Nodup →
    ((collectFallingSpawns w fuel q acc).2.map Prod.fst).Nodup := by
  intro fuel
  induction fuel with
  | zero => intro q acc _ _ hacc; exact hacc
  | succ n ih =>
      intro q acc hq hdisj hacc
      cases hpop : q.pop with
      | none =>
          rw [collectFallingSpawns]
          simp only [hpop]
          exact hacc
      | some pq =>
          obtain ⟨pos, q'⟩ := pq
          have hpend : q.pending = pos :: q'.pending := by
            rw [FallingPropagationQueue.pop] at hpop
            cases hqp : q.pending with
            | nil => rw [hqp] at hpop; exact absurd hpop (by simp)
            | cons a rest =>
                rw [hqp] at hpop
                simp only [Option.some.injEq, Prod.mk.injEq] at hpop
                obtain ⟨h1, h2⟩ := hpop
                subst h1
                rw [← h2]
          rw [collectFallingSpawns]
          simp only [hpop]
          rw [hpend] at hq hdisj
          rcases List.nodup_cons.1 hq with ⟨hposrest, hrest⟩
          have hdisj2 : ∀ pb ∈ acc, pb.1 ∉ q'.pending :=
            fun pb hpb hc => hdisj pb hpb (List.mem_cons_of_mem pos hc)
          cases hgb : w.get_block_world pos with
          | none =>
              simp only [hgb]
              exact ih q' acc hrest hdisj2 hacc
          | some b =>
              simp only [hgb]
              by_cases hs : should_start_falling w pos b = true
              · rw [if_pos hs]
                refine ih q' (acc ++ [(pos, b)]) hrest ?_ ?_
                · intro pb hpb
                  rcases List.mem_append.1 hpb with hpb | hpb
                  · exact hdisj2 pb hpb
                  · rw [List.mem_singleton] at hpb
                    subst hpb
                    exact hposrest
                · rw [List.map_append, List.map_singleton]
                  rw [List.nodup_append]
                  refine ⟨hacc, List.nodup_singleton pos, ?_⟩
                  intro a ha hb
                  rw [List.mem_singleton] at hb
                  rcases List.mem_map.1 ha with ⟨pb, hpb, hfst⟩
                  exact hdisj pb hpb (by rw [hfst, hb]; exact List.mem_cons_self pos q'.pending)
              · rw [if_neg hs]
                exact ih q' acc hrest hdisj2 hacc

/-- The block-coordinate-to-world-translation map is injective. -/
theorem world_translation_inj {p p' : IVec3}
    (h : Block.world_translation p = Block.world_translation p') : p = p' := by
  have hx := congrArg Vec3q.x h
  have hy := congrArg Vec3q.y h
  have hz := congrArg Vec3q.z h
  simp only [Block.world_translation, BLOCK_SIZE, mul_one] at hx hy hz
  ext
  · exact_mod_cast hx
  · exact_mod_cast hy
  · exact_mod_cast hz

/-- Among entities spawned for distinct positions, exactly the one for a
given member position matches its translation. -/
theorem filter_entityOf_single (L : List (IVec3 × Block)) :
    ∀ (pb : IVec3 × Block), (L.map Prod.fst).Nodup → pb ∈ L →
    (L.map entityOf).filter
      (fun e => decide (e.translation = Block.world_translation pb.1)) = [entityOf pb] := by
  induction L with
  | nil => intro pb _ hm; exact absurd hm (List.not_mem_nil pb)
  | cons hd L ih =>
      intro pb hnd hm
      rw [List.map_cons, List.nodup_cons] at hnd
      obtain ⟨hnotin, hnd2⟩ := hnd
      rw [List.map_cons]
      rcases List.mem_cons.1 hm with hm | hm
      · subst hm
        rw [List.filter_cons_of_pos (by simp [entityOf])]
        have hnil : (L.map entityOf).filter
            (fun e => decide (e.translation = Block.world_translation pb.1)) = [] := by
          rw [List.filter_eq_nil_iff]
          intro e he
          rcases List.mem_map.1 he with ⟨x, hx, rfl⟩
          simp only [entityOf, decide_eq_true_eq]
          intro hc
          exact hnotin ((world_translation_inj hc) ▸ List.mem_map_of_mem Prod.fst hx)
        rw [hnil]
      · have hne : hd.1 ≠ pb.1 := by
          intro hc
          exact hnotin (hc ▸ List.mem_map_of_mem Prod.fst hm)
        rw [List.filter_cons_of_neg (by
          simp only [entityOf, decide_eq_true_eq]
          exact fun hc => hne (world_translation_inj hc))]
        exact ih pb hnd2 hm

/-- C5: detachment is atomic.  In one falling-spawn step over a dedup queue,
the spawned entity list is extended by exactly one entity per collected
position (carrying the original block with zero velocity, at the cell's
world translation); the collected positions are distinct; and for each of
them the source cell — which held the original block when collected — reads
as air afterwards, is no longer solid (never both), while exactly one of the
newly spawned entities matches that position (never neither). -/
theorem C5_detach_atomicity (st : SimState) (hq : st.queue.pending.Nodup) :
    ((spawn_falling_blocks_system st).falling = st.falling ++ (toSpawn st).map entityOf) ∧
    ((toSpawn st).map Prod.fst).Nodup ∧
    (∀ pb ∈ toSpawn st,
      st.world.get_block_world pb.1 = some pb.2 ∧
      should_start_falling st.world pb.1 pb.2 = true ∧
      (spawn_falling_blocks_system st).world.get_block_world pb.1 = some Block.air ∧
      (spawn_falling_blocks_system st).world.is_solid_at_world_pos pb.1 = false ∧
      ((toSpawn st).map entityOf).filter
        (fun e => decide (e.translation = Block.world_translation pb.1)) = [entityOf pb]) := by
  have hsound := collectFallingSpawns_sound st.world MAX_PROPAGATION_STEPS_PER_FRAME
    st.queue [] (by intro pb hpb; exact absurd hpb (List.not_mem_nil pb))
  have hnodup : ((toSpawn st).map Prod.fst).Nodup :=
    collectFallingSpawns_nodup st.world MAX_PROPAGATION_STEPS_PER_FRAME st.queue [] hq
      (by intro pb hpb; exact absurd hpb (List.not_mem_nil pb)) List.nodup_nil
  have hsys : spawn_falling_blocks_system st =
      (toSpawn st).foldl detachOne
        { st with queue := (collectFallingSpawns st.world
            MAX_PROPAGATION_STEPS_PER_FRAME st.queue []).1 } := by
    rw [spawn_falling_blocks_system]
    by_cases he : (collectFallingSpawns st.world MAX_PROPAGATION_STEPS_PER_FRAME
        st.queue []).2.isEmpty = true
    · rw [if_pos he]
      have : toSpawn st = [] := List.isEmpty_iff.1 he
      rw [this]
      rfl
    · rw [if_neg he]
      rfl
  set st1 : SimState :=
    { st with queue := (collectFallingSpawns st.world
        MAX_PROPAGATION_STEPS_PER_FRAME st.queue []).1 } with hst1
  have hload : ∀ pb ∈ toSpawn st, (st1.world.get_block_world pb.1).isSome = true := by
    intro pb hpb
    have := (hsound pb hpb).1
    rw [hst1]
    rw [this]
    rfl
  obtain ⟨hf1, hf2, hf3⟩ := detach_fold_spec (toSpawn st) st1 hnodup hload
  refine ⟨by rw [hsys, hf1], hnodup, ?_⟩
  intro pb hpb
  have hair : (spawn_falling_blocks_system st).world.get_block_world pb.1 = some Block.air := by
    rw [hsys]
    exact hf2 pb hpb
  refine ⟨(hsound pb hpb).1, (hsound pb hpb).2, hair, ?_,
    filter_entityOf_single (toSpawn st) pb hnodup hpb⟩
  rw [WorldState.is_solid_at_world_pos, hair]
  rfl

/-- Chunk holding a single sand block at local `(0, 1, 0)`. -/
def sandAboveAirChunk : Chunk := Chunk.new_empty.set_block ⟨0, 1, 0⟩ Block.sand

/-- Simulation state with that chunk loaded and `(0, 1, 0)` queued. -/
def detachExampleState : SimState :=
  { world := { WorldState.new with chunks := [(⟨0, 0, 0⟩, sandAboveAirChunk)] }
    queue := { pending := [⟨0, 1, 0⟩], scheduled := [⟨0, 1, 0⟩] }
    falling := [] }

/-- C5 witness: the atomicity theorem applied to a world holding one sand
block over air, with its position queued for support re-evaluation. -/
theorem C5_detach_atomicity_witness :
    ((spawn_falling_blocks_system detachExampleState).falling =
      detachExampleState.falling ++ (toSpawn detachExampleState).map entityOf) ∧
    ((toSpawn detachExampleState).map Prod.fst).Nodup ∧
    (∀ pb ∈ toSpawn detachExampleState,
      detachExampleState.world.get_block_world pb.1 = some pb.2 ∧
      should_start_falling detachExampleState.world pb.1 pb.2 = true ∧
      (spawn_falling_blocks_system detachExampleState).world.get_block_world pb.1 =
        some Block.air ∧
      (spawn_falling_blocks_system detachExampleState).world.is_solid_at_world_pos pb.1 =
        false ∧
      ((toSpawn detachExampleState).map entityOf).filter
        (fun e => decide (e.translation = Block.world_translation pb.1)) = [entityOf pb]) :=
  C5_detach_atomicity detachExampleState (by decide)

/-- Player state as used by placement overlap checks: only the collider
half-extent feeds `Player::intersects_block` (`components.rs`). -/
structure Player where
  half_size : Vec3q
deriving DecidableEq, Repr

/-- Strict-inequality AABB overlap between the player collider and one
block's unit volume (`Player::intersects_block`). -/
def Player.intersects_block (pl : Player) (player_pos : Vec3q) (block_world : IVec3) : Bool :=
  let block_min := Block.world_translation block_world
  let block_max := block_min + ⟨BLOCK_SIZE, BLOCK_SIZE, BLOCK_SIZE⟩
  let player_min := player_pos - pl.half_size
  let player_max := player_pos + pl.half_size
  decide (player_min.x < block_max.x) && decide (player_max.x > block_min.x) &&
  decide (player_min.y < block_max.y) && decide (player_max.y > block_min.y) &&
  decide (player_min.z < block_max.z) && decide (player_max.z > block_min.z)

/-- Return `true` only when `candidate` is one of the six face-neighbors of
`center` (`is_face_neighbor` in `systems/interaction.rs`). -/
def is_face_neighbor (center candidate : IVec3) : Bool :=
  let d := candidate - center
  decide (|d.x| + |d.y| + |d.z| = 1)

/-- Commit a placement: ensure the chunk, write the block, and rebuild the
touched chunk mesh (the tail of `WorldState::place_block`; the returned list
holds the chunk coordinates whose meshes are rebuilt). -/
def placeCommit (hAt : Int → Int → Int) (s : WorldState) (target_world : IVec3)
    (b : Block) : Bool × WorldState × List IVec3 :=
  let r := s.set_block_world_ensured hAt target_world b
  match r.1 with
  | none => (false, r.2, [])
  | some chunk_coord => (true, r.2, [chunk_coord])

/-- Place one block at a world position unless it overlaps the player
collider (`WorldState::place_block`).  The player query result is `some`
when a player body exists; the placed block's front is derived from the
negated camera forward vector. -/
def WorldState.place_block (hAt : Int → Int → Int) (s : WorldState)
    (player : Option (Vec3q × Player)) (placement_forward : Vec3q)
    (target_world : IVec3) (b : Block) : Bool × WorldState × List IVec3 :=
  match player with
  | some pp =>
      if pp.2.intersects_block pp.1 target_world then (false, s, [])
      else placeCommit hAt s target_world (b.with_front_from_direction (-placement_forward))
  | none => placeCommit hAt s target_world b

/-- The place branch of `block_interaction_system`: gated on the cooldown,
on both raymarch results existing, on face adjacency, and on
`place_block` succeeding. -/
def attempt_place (hAt : Int → Int → Int) (s : WorldState) (can_place : Bool)
    (hit last_empty : Option IVec3) (player : Option (Vec3q × Player))
    (forward : Vec3q) (selected : Block) : Bool × WorldState × List IVec3 :=
  if can_place then
    match hit with
    | none => (false, s, [])
    | some hit_world =>
      match last_empty with
      | none => (false, s, [])
      | some target_world =>
          if is_face_neighbor hit_world target_world then
            s.place_block hAt player forward target_world selected
          else (false, s, [])
  else (false, s, [])

/-- C7: with a player present, placement proceeds only when the raymarch
returned both a hit and a last-empty cell, the last-empty cell is
face-adjacent to the hit (Manhattan distance exactly 1), and the candidate
cell does not overlap the player collider; whenever any of these
preconditions fails — in particular on collider overlap — the voxel store
is returned unchanged and no chunk mesh is rebuilt. -/
theorem C7_place_preconditions (hAt : Int → Int → Int) (s : WorldState)
    (can_place : Bool) (hit last_empty : Option IVec3) (ppos : Vec3q) (pl : Player)
    (forward : Vec3q) (selected : Block) :
    (hit = none →
      attempt_place hAt s can_place hit last_empty (some (ppos, pl)) forward selected =
        (false, s, [])) ∧
    (last_empty = none →
      attempt_place hAt s can_place hit last_empty (some (ppos, pl)) forward selected =
        (false, s, [])) ∧
    (∀ hw tw, hit = some hw → last_empty = some tw → is_face_neighbor hw tw = false →
      attempt_place hAt s can_place hit last_empty (some (ppos, pl)) forward selected =
        (false, s, [])) ∧
    (∀ hw tw, hit = some hw → last_empty = some tw →
      pl.intersects_block ppos tw = true →
      attempt_place hAt s can_place hit last_empty (some (ppos, pl)) forward selected =
        (false, s, [])) ∧
    ((attempt_place hAt s can_place hit last_empty (some (ppos, pl)) forward selected).1 =
        true →
      ∃ hw tw, hit = some hw ∧ last_empty = some tw ∧ is_face_neighbor hw tw = true ∧
        pl.intersects_block ppos tw = false) := by
  refine ⟨?_, ?_, ?_, ?_, ?_⟩
  · rintro rfl
    cases can_place <;> rfl
  · rintro rfl
    cases can_place <;> cases hit <;> rfl
  · rintro hw tw rfl rfl h3
    cases can_place with
    | false => rfl
    | true =>
        show (if is_face_neighbor hw tw = true then
            s.place_block hAt (some (ppos, pl)) forward tw selected
          else (false, s, [])) = (false, s, [])
        rw [if_neg (by rw [h3]; exact Bool.false_ne_true)]
  · rintro hw tw rfl rfl h3
    cases can_place with
    | false => rfl
    | true =>
        show (if is_face_neighbor hw tw = true then
            s.place_block hAt (some (ppos, pl)) forward tw selected
          else (false, s, [])) = (false, s, [])
        by_cases hfn : is_face_neighbor hw tw = true
        · rw [if_pos hfn]
          show (if pl.intersects_block ppos tw = true then
              ((false, s, []) : Bool × WorldState × List IVec3)
            else placeCommit hAt s tw
              (selected.with_front_from_direction (-forward))) = (false, s, [])
          rw [if_pos h3]
        · rw [if_neg hfn]
  · intro hres
    cases can_place with
    | false => exact absurd hres Bool.false_ne_true
    | true =>
        cases hit with
        | none => exact absurd hres Bool.false_ne_true
        | some hw =>
            cases last_empty with
            | none => exact absurd hres Bool.false_ne_true
            | some tw =>
                refine ⟨hw, tw, rfl, rfl, ?_⟩
                have hres1 : (if is_face_neighbor hw tw = true then
                    s.place_block hAt (some (ppos, pl)) forward tw selected
                  else (false, s, [])).1 = true := hres
                by_cases hfn : is_face_neighbor hw tw = true
                · rw [if_pos hfn] at hres1
                  have hres2 : (if pl.intersects_block ppos tw = true then
                      ((false, s, []) : Bool × WorldState × List IVec3)
                    else placeCommit hAt s tw
                      (selected.with_front_from_direction (-forward))).1 = true := hres1
                  cases hov : pl.intersects_block ppos tw with
                  | true =>
                      rw [if_pos hov] at hres2
                      exact absurd hres2 Bool.false_ne_true
                  | false => exact ⟨hfn, rfl⟩
                · rw [if_neg hfn] at hres1
                  exact absurd hres1 Bool.false_ne_true

/-- The standing player collider half-extent (`STAND_HALF_SIZE` with
`BLOCK_SIZE = 1`). -/
def STAND_HALF_SIZE : Vec3q := ⟨3/10, 19/20, 3/10⟩

/-- C7 witness: placing into the cell occupied by the player is rejected
with the store unchanged and no mesh rebuild — the overlap conjunct applied
to a player standing in cell (0,0,0) aiming at that cell. -/
theorem C7_place_preconditions_witness :
    attempt_place (fun _ _ => 0) WorldState.new true (some ⟨0, 0, 1⟩) (some ⟨0, 0, 0⟩)
      (some (⟨1/2, 1/2, 1/2⟩, ⟨STAND_HALF_SIZE⟩)) ⟨0, 0, 1⟩ Block.dirt =
      (false, WorldState.new, []) :=
  (C7_place_preconditions (fun _ _ => 0) WorldState.new true (some ⟨0, 0, 1⟩)
    (some ⟨0, 0, 0⟩) ⟨1/2, 1/2, 1/2⟩ ⟨STAND_HALF_SIZE⟩ ⟨0, 0, 1⟩ Block.dirt).2.2.2.1
    ⟨0, 0, 1⟩ ⟨0, 0, 0⟩ rfl rfl (by decide)

/-- Return `true` if a chunk is loaded, pending, or building
(`WorldState::is_chunk_scheduled_or_loaded`). -/
def WorldState.is_chunk_scheduled_or_loaded (s : WorldState) (coord : IVec3) : Bool :=
  alistContains s.chunks coord || decide (coord ∈ s.pending) || decide (coord ∈ s.inFlight)

/-- Sync the needed set and drop pending/in-flight entries no longer needed
(`WorldState::sync_needed_set`). -/
def WorldState.sync_needed_set (s : WorldState) (needed : List IVec3) : WorldState :=
  if needed = s.needed then s
  else
    { s with
      needed := needed
      pending := s.pending.filter (fun c => decide (c ∈ needed))
      inFlight := s.inFlight.filter (fun c => decide (c ∈ needed)) }

/-- Enqueue every needed chunk not already loaded/pending/in-flight
(`WorldState::enqueue_needed_chunks`). -/
def WorldState.enqueue_needed_chunks (s : WorldState) : WorldState :=
  s.needed.foldl
    (fun s' coord =>
      if s'.is_chunk_scheduled_or_loaded coord then s'
      else { s' with pending := s'.pending ++ [coord] }) s

/-- Return `true` if the chunk's Y layer is streamed
(`WorldState::is_streaming_layer`). -/
def WorldState.is_streaming_layer (s : WorldState) (coord : IVec3) : Bool :=
  decide (0 ≤ coord.y ∧ coord.y < VERTICAL_CHUNK_LAYERS)

/-- Collect loaded streaming-layer chunks outside the needed set
(`WorldState::collect_unneeded_loaded_chunks`). -/
def WorldState.collect_unneeded_loaded_chunks (s : WorldState) : List IVec3 :=
  (s.chunks.map Prod.fst).filter
    (fun coord => s.is_streaming_layer coord && decide (coord ∉ s.needed))

/-- Unload one chunk (`WorldState::unload_chunk`; entity despawn is
render-side). -/
def WorldState.unload_chunk (s : WorldState) (coord : IVec3) : WorldState :=
  { s with chunks := alistErase s.chunks coord }

/-- The eviction pass of `chunk_loading_system`: unload every collected
unneeded chunk. -/
def WorldState.evict_unneeded (s : WorldState) : WorldState :=
  s.collect_unneeded_loaded_chunks.foldl (fun s' c => s'.unload_chunk c) s

/-- Return whether another build task can start this frame
(`WorldState::can_start_chunk_build`). -/
def WorldState.can_start_chunk_build (s : WorldState) (started_this_frame : Nat) : Bool :=
  decide (started_this_frame < LOADS_PER_FRAME) &&
  decide (s.inFlight.length < MAX_IN_FLIGHT) && !s.pending.isEmpty

/-- The `while` loop of `spawn_chunk_build_tasks`: move the front pending
coordinate into the in-flight map while the frame and concurrency bounds
permit.  (The `[]` branch is unreachable: `can_start_chunk_build` requires a
non-empty pending queue, mirroring the Rust `unwrap`.) -/
def spawnLoop (s : WorldState) (started : Nat) : WorldState :=
  if h : s.can_start_chunk_build started = true then
    match s.pending with
    | [] => s
    | coord :: rest =>
        spawnLoop { s with pending := rest, inFlight := keyInsert coord s.inFlight }
          (started + 1)
  else s
termination_by LOADS_PER_FRAME - started
decreasing_by
  simp only [WorldState.can_start_chunk_build, Bool.and_eq_true, decide_eq_true_eq] at h
  omega

/-- Spawn a bounded number of async chunk build tasks
(`WorldState::spawn_chunk_build_tasks`). -/
def WorldState.spawn_chunk_build_tasks (s : WorldState) : WorldState := spawnLoop s 0

/-- Result payload of one async chunk build (`ChunkBuildOutput`; the mesh
data is render-side and carries no voxel content). -/
structure ChunkBuildOutput where
  coord : IVec3
  chunk : Chunk

/-- Poll in-flight tasks: the tasks in `done` have completed; they leave the
in-flight map and yield their (pure) build outputs
(`WorldState::collect_finished_chunk_tasks`; each task computes
`Chunk::new_streaming` for its coordinate). -/
def WorldState.collect_finished_chunk_tasks (hAt : Int → Int → Int) (s : WorldState)
    (done : List IVec3) : WorldState × List ChunkBuildOutput :=
  ({ s with inFlight := s.inFlight.filter (fun c => decide (c ∉ done)) },
   (s.inFlight.filter (fun c => decide (c ∈ done))).map
     (fun coord => ⟨coord, Chunk.new_streaming hAt coord⟩))

/-- Return `true` if a finished build is still needed
(`WorldState::should_accept_finished_chunk`). -/
def WorldState.should_accept_finished_chunk (s : WorldState) (coord : IVec3) : Bool :=
  decide (coord ∈ s.needed)

/-- Insert one finished chunk as loaded (`WorldState::insert_loaded_chunk`;
render entity spawn omitted). -/
def WorldState.insert_loaded_chunk (s : WorldState) (coord : IVec3) (chunk : Chunk) :
    WorldState :=
  { s with chunks := alistInsert s.chunks coord chunk }

/-- Insert still-needed finished builds and discard the rest
(`WorldState::apply_finished_chunk_results`). -/
def WorldState.apply_finished_chunk_results (s : WorldState)
    (finished : List ChunkBuildOutput) : WorldState :=
  finished.foldl
    (fun s' r =>
      if s'.should_accept_finished_chunk r.coord then s'.insert_loaded_chunk r.coord r.chunk
      else s') s

/-- Break one block at a world position and rebuild the touched chunk mesh
(`WorldState::break_block`; the returned list holds rebuilt chunk meshes). -/
def WorldState.break_block (s : WorldState) (target_world : IVec3) :
    Bool × WorldState × List IVec3 :=
  match s.get_block_world target_world with
  | none => (false, s, [])
  | some target_block =>
      if !target_block.is_interactable then (false, s, [])
      else
        let r := s.set_block_world_loaded target_world Block.air
        match r.1 with
        | none => (false, r.2, [])
        | some chunk_coord => (true, r.2, [chunk_coord])

/-- One step of the world store: every operation the claims name (needed-set
sync, enqueue, build-task spawn, poll/merge, eviction, break,
place/ensure_chunk, settle), with arbitrary inputs. -/
inductive WStep (hAt : Int → Int → Int) : WorldState → WorldState → Prop where
  | sync (s : WorldState) (needed : List IVec3) : WStep hAt s (s.sync_needed_set needed)
  | enqueue (s : WorldState) : WStep hAt s s.enqueue_needed_chunks
  | evict (s : WorldState) : WStep hAt s s.evict_unneeded
  | spawnTasks (s : WorldState) : WStep hAt s s.spawn_chunk_build_tasks
  | pollMerge (s : WorldState) (done : List IVec3) :
      WStep hAt s
        ((s.collect_finished_chunk_tasks hAt done).1.apply_finished_chunk_results
          (s.collect_finished_chunk_tasks hAt done).2)
  | breakB (s : WorldState) (target : IVec3) : WStep hAt s (s.break_block target).2.1
  | placeB (s : WorldState) (player : Option (Vec3q × Player)) (forward : Vec3q)
      (target : IVec3) (b : Block) :
      WStep hAt s (s.place_block hAt player forward target b).2.1
  | ensure (s : WorldState) (coord : IVec3) : WStep hAt s (s.ensure_chunk hAt coord)
  | settle (s : WorldState) (landing : IVec3) (b : Block) :
      WStep hAt s (s.settle_falling_block hAt landing b).2

/-- One step of the streaming scheduler alone: as `WStep` but without the
synchronous-generation path (place/ensure_chunk, settle). -/
inductive StreamStep (hAt : Int → Int → Int) : WorldState → WorldState → Prop where
  | sync (s : WorldState) (needed : List IVec3) : StreamStep hAt s (s.sync_needed_set needed)
  | enqueue (s : WorldState) : StreamStep hAt s s.enqueue_needed_chunks
  | evict (s : WorldState) : StreamStep hAt s s.evict_unneeded
  | spawnTasks (s : WorldState) : StreamStep hAt s s.spawn_chunk_build_tasks
  | pollMerge (s : WorldState) (done : List IVec3) :
      StreamStep hAt s
        ((s.collect_finished_chunk_tasks hAt done).1.apply_finished_chunk_results
          (s.collect_finished_chunk_tasks hAt done).2)
  | breakB (s : WorldState) (target : IVec3) : StreamStep hAt s (s.break_block target).2.1

/-- The store partition invariant: pending and in-flight hold distinct
coordinates and the three collections are pairwise disjoint. -/
def StoreInv (s : WorldState) : Prop :=
  s.pending.Nodup ∧ s.inFlight.Nodup ∧
  (∀ c, alistContains s.chunks c = true → c ∉ s.pending) ∧
  (∀ c, alistContains s.chunks c = true → c ∉ s.inFlight) ∧
  (∀ c, c ∈ s.pending → c ∉ s.inFlight)

/-- A successful lookup implies key membership. -/
theorem alistFind_some_contains {α : Type} (l : List (IVec3 × α)) (k : IVec3) (v : α)
    (h : alistFind l k = some v) : alistContains l k = true := by
  induction l with
  | nil => exact absurd h (by simp [alistFind])
  | cons p rest ih =>
      rw [alistFind] at h
      rw [alistContains, List.any_cons]
      by_cases hp : p.1 = k
      · simp [hp]
      · rw [if_neg hp] at h
        simp only [Bool.or_eq_true, decide_eq_true_eq]
        exact Or.inr (by rw [← alistContains]; exact ih h)

/-- Keys present after an insertion were the inserted key or already present. -/
theorem alistContains_insert_imp {α : Type} (l : List (IVec3 × α)) (k : IVec3) (v : α)
    (c : IVec3) (h : alistContains (alistInsert l k v) c = true) :
    c = k ∨ alistContains l c = true := by
  rw [alistInsert] at h
  by_cases hc : alistContains l k = true
  · rw [if_pos hc] at h
    clear hc
    induction l with
    | nil => exact absurd h (by simp [alistContains])
    | cons p rest ih =>
        rw [List.map_cons, alistContains, List.any_cons] at h
        simp only [Bool.or_eq_true, decide_eq_true_eq] at h
        rcases h with h | h
        · by_cases hp : p.1 = k
          · rw [if_pos hp] at h
            exact Or.inl (by rw [← h])
          · rw [if_neg hp] at h
            right
            rw [alistContains, List.any_cons]
            simp only [Bool.or_eq_true, decide_eq_true_eq]
            exact Or.inl h
        · rcases ih (by rw [alistContains]; exact h) with h' | h'
          · exact Or.inl h'
          · right
            rw [alistContains, List.any_cons]
            simp only [Bool.or_eq_true, decide_eq_true_eq]
            exact Or.inr (by rw [alistContains] at h'; exact h')
  · rw [if_neg hc, alistContains, List.any_cons] at h
    simp only [Bool.or_eq_true, decide_eq_true_eq] at h
    rcases h with h | h
    · exact Or.inl h.symm
    · exact Or.inr (by rw [alistContains]; exact h)

/-- Keys present after an erasure were present before. -/
theorem alistContains_erase_imp {α : Type} (l : List (IVec3 × α)) (k c : IVec3)
    (h : alistContains (alistErase l k) c = true) : alistContains l c = true := by
  rw [alistErase, alistContains, List.any_eq_true] at h
  rw [alistContains, List.any_eq_true]
  obtain ⟨p, hp, hpc⟩ := h
  exact ⟨p, List.mem_of_mem_filter hp, hpc⟩

/-- Membership in a key-set insertion. -/
theorem mem_keyInsert {k c : IVec3} {l : List IVec3} :
    c ∈ keyInsert k l ↔ c = k ∨ c ∈ l := by
  rw [keyInsert]
  by_cases hk : k ∈ l
  · rw [if_pos hk]
    constructor
    · exact Or.inr
    · rintro (rfl | h)
      · exact hk
      · exact h
  · rw [if_neg hk, List.mem_cons]

/-- Key-set insertion of a fresh key preserves distinctness. -/
theorem keyInsert_nodup {k : IVec3} {l : List IVec3} (h : l.Nodup) :
    (keyInsert k l).Nodup := by
  rw [keyInsert]
  by_cases hk : k ∈ l
  · rw [if_pos hk]; exact h
  · rw [if_neg hk]; exact List.nodup_cons.2 ⟨hk, h⟩

/-- Key-set insertion grows the list by at most one element. -/
theorem keyInsert_length (k : IVec3) (l : List IVec3) :
    (keyInsert k l).length ≤ l.length + 1 := by
  rw [keyInsert]
  by_cases hk : k ∈ l
  · rw [if_pos hk]; omega
  · rw [if_neg hk]; rw [List.length_cons]

/-- A fold preserves any invariant its step preserves. -/
theorem foldl_inv {σ α : Type} (P : σ → Prop) (f : σ → α → σ)
    (hstep : ∀ s a, P s → P (f s a)) :
    ∀ (l : List α) (s : σ), P s → P (l.foldl f s) := by
  intro l
  induction l with
  | nil => intro s hs; exact hs
  | cons a l ih => intro s hs; exact ih (f s a) (hstep s a hs)

/-- The initial world state satisfies the partition invariant. -/
theorem StoreInv_new : StoreInv WorldState.new := by
  refine ⟨List.nodup_nil, List.nodup_nil, ?_, ?_, ?_⟩ <;>
    intro c h <;> simp [WorldState.new, alistContains] at h ⊢

/-- Needed-set sync preserves the partition invariant. -/
theorem StoreInv_sync (s : WorldState) (needed : List IVec3) (h : StoreInv s) :
    StoreInv (s.sync_needed_set needed) := by
  rw [WorldState.sync_needed_set]
  by_cases heq : needed = s.needed
  · rw [if_pos heq]; exact h
  · rw [if_neg heq]
    obtain ⟨h1, h2, h3, h4, h5⟩ := h
    refine ⟨h1.filter _, h2.filter _, ?_, ?_, ?_⟩
    · intro c hc hm
      exact h3 c hc (List.mem_of_mem_filter hm)
    · intro c hc hm
      exact h4 c hc (List.mem_of_mem_filter hm)
    · intro c hc hm
      exact h5 c (List.mem_of_mem_filter hc) (List.mem_of_mem_filter hm)

/-- Enqueueing needed chunks preserves the partition invariant. -/
theorem StoreInv_enqueue (s : WorldState) (h : StoreInv s) :
    StoreInv s.enqueue_needed_chunks := by
  rw [WorldState.enqueue_needed_chunks]
  refine foldl_inv StoreInv _ ?_ s.needed s h
  intro s' coord hs'
  by_cases hsc : s'.is_chunk_scheduled_or_loaded coord = true
  · rw [if_pos hsc]; exact hs'
  · rw [if_neg hsc]
    rw [WorldState.is_chunk_scheduled_or_loaded] at hsc
    simp only [Bool.or_eq_true, decide_eq_true_eq, not_or] at hsc
    obtain ⟨⟨hc1, hc2⟩, hc3⟩ := hsc
    obtain ⟨h1, h2, h3, h4, h5⟩ := hs'
    refine ⟨?_, h2, ?_, h4, ?_⟩
    · rw [List.nodup_append]
      exact ⟨h1, List.nodup_singleton coord,
        fun a ha hb => hc2 (by rw [List.mem_singleton] at hb; exact hb ▸ ha)⟩
    · intro c hc hm
      rcases List.mem_append.1 hm with hm | hm
      · exact h3 c hc hm
      · rw [List.mem_singleton] at hm
        exact hc1 (by rw [← hm]; simp [hc])
    · intro c hc hm
      rcases List.mem_append.1 hc with hc | hc
      · exact h5 c hc hm
      · rw [List.mem_singleton] at hc
        exact hc3 (hc ▸ hm)

/-- Unloading a chunk preserves the partition invariant. -/
theorem StoreInv_unload (s : WorldState) (coord : IVec3) (h : StoreInv s) :
    StoreInv (s.unload_chunk coord) := by
  obtain ⟨h1, h2, h3, h4, h5⟩ := h
  exact ⟨h1, h2,
    fun c hc => h3 c (alistContains_erase_imp s.chunks coord c hc),
    fun c hc => h4 c (alistContains_erase_imp s.chunks coord c hc), h5⟩

/-- The eviction pass preserves the partition invariant. -/
theorem StoreInv_evict (s : WorldState) (h : StoreInv s) : StoreInv s.evict_unneeded :=
  foldl_inv StoreInv _ (fun s' c hs' => StoreInv_unload s' c hs')
    s.collect_unneeded_loaded_chunks s h

/-- The task-spawn loop preserves the partition invariant. -/
theorem StoreInv_spawnLoop :
    ∀ (k : Nat) (s : WorldState) (started : Nat), LOADS_PER_FRAME - started ≤ k →
    StoreInv s → StoreInv (spawnLoop s started) := by
  intro k
  induction k with
  | zero =>
      intro s started hk h
      have hcs : s.can_start_chunk_build started = false := by
        rw [WorldState.can_start_chunk_build]
        have : ¬ (started < LOADS_PER_FRAME) := by omega
        simp [this]
      rw [spawnLoop, dif_neg (by rw [hcs]; exact Bool.false_ne_true)]
      exact h
  | succ n ih =>
      intro s started hk h
      by_cases hcs : s.can_start_chunk_build started = true
      · rw [spawnLoop, dif_pos hcs]
        have hlt : started < LOADS_PER_FRAME := by
          rw [WorldState.can_start_chunk_build] at hcs
          simp only [Bool.and_eq_true, decide_eq_true_eq] at hcs
          exact hcs.1.1
        cases hp : s.pending with
        | nil => exact h
        | cons coord rest =>
            obtain ⟨h1, h2, h3, h4, h5⟩ := h
            rw [hp] at h1 h3 h5
            rcases List.nodup_cons.1 h1 with ⟨hcr, h1r⟩
            have hcoord_inflight : coord ∉ s.inFlight :=
              h5 coord (List.mem_cons_self coord rest)
            refine ih _ (started + 1) (by omega) ?_
            refine ⟨h1r, keyInsert_nodup h2, ?_, ?_, ?_⟩
            · intro c hc hm
              exact h3 c hc (List.mem_cons_of_mem coord hm)
            · intro c hc hm
              rcases mem_keyInsert.1 hm with rfl | hm
              · exact h3 c hc (List.mem_cons_self c rest)
              · exact h4 c hc hm
            · intro c hc hm
              rcases mem_keyInsert.1 hm with rfl | hm
              · exact hcr hc
              · exact h5 c (List.mem_cons_of_mem coord hc) hm
      · rw [spawnLoop, dif_neg hcs]
        exact h

/-- Task spawning preserves the partition invariant. -/
theorem StoreInv_spawnTasks (s : WorldState) (h : StoreInv s) :
    StoreInv s.spawn_chunk_build_tasks :=
  StoreInv_spawnLoop LOADS_PER_FRAME s 0 (by omega) h

/-- Applying finished results whose coordinates are outside pending and
in-flight preserves the partition invariant. -/
theorem StoreInv_apply (finished : List ChunkBuildOutput) :
    ∀ (s : WorldState), StoreInv s →
    (∀ r ∈ finished, r.coord ∉ s.pending ∧ r.coord ∉ s.inFlight) →
    StoreInv (s.apply_finished_chunk_results finished) := by
  induction finished with
  | nil => intro s h _; exact h
  | cons r rest ih =>
      intro s h hr
      rw [WorldState.apply_finished_chunk_results, List.foldl_cons]
      rw [← WorldState.apply_finished_chunk_results]
      by_cases hacc : s.should_accept_finished_chunk r.coord = true
      · rw [if_pos hacc]
        obtain ⟨h1, h2, h3, h4, h5⟩ := h
        obtain ⟨hrp, hrf⟩ := hr r (List.mem_cons_self r rest)
        refine ih _ ⟨h1, h2, ?_, ?_, h5⟩ ?_
        · intro c hc
          rcases alistContains_insert_imp s.chunks r.coord r.chunk c hc with rfl | hc'
          · exact hrp
          · exact h3 c hc'
        · intro c hc
          rcases alistContains_insert_imp s.chunks r.coord r.chunk c hc with rfl | hc'
          · exact hrf
          · exact h4 c hc'
        · intro x hx
          exact hr x (List.mem_cons_of_mem r hx)
      · rw [if_neg hacc]
        exact ih s h (fun x hx => hr x (List.mem_cons_of_mem r hx))

/-- Poll/merge preserves the partition invariant. -/
theorem StoreInv_pollMerge (hAt : Int → Int → Int) (s : WorldState) (done : List IVec3)
    (h : StoreInv s) :
    StoreInv ((s.collect_finished_chunk_tasks hAt done).1.apply_finished_chunk_results
      (s.collect_finished_chunk_tasks hAt done).2) := by
  obtain ⟨h1, h2, h3, h4, h5⟩ := h
  refine StoreInv_apply _ _ ⟨h1, h2.filter _, ?_, ?_, ?_⟩ ?_
  · intro c hc
    exact h3 c hc
  · intro c hc hm
    exact h4 c hc (List.mem_of_mem_filter hm)
  · intro c hc hm
    exact h5 c hc (List.mem_of_mem_filter hm)
  · intro r hrm
    rw [WorldState.collect_finished_chunk_tasks] at hrm
    simp only [List.mem_map, List.mem_filter, decide_eq_true_eq] at hrm
    obtain ⟨coord, ⟨hcf, hcd⟩, rfl⟩ := hrm
    constructor
    · intro hc
      exact h5 coord hc hcf
    · intro hc
      rw [WorldState.collect_finished_chunk_tasks] at hc
      simp only [List.mem_filter, decide_eq_true_eq] at hc
      exact hc.2 hcd

/-- Breaking a block preserves the partition invariant (the loaded-chunk key
set is unchanged). -/
theorem StoreInv_break (s : WorldState) (target : IVec3) (h : StoreInv s) :
    StoreInv (s.break_block target).2.1 := by
  rw [WorldState.break_block]
  cases hgb : s.get_block_world target with
  | none => exact h
  | some tb =>
      by_cases hint : tb.is_interactable = true
      · simp only [hint, Bool.not_true, Bool.false_eq_true, if_false]
        rw [WorldState.set_block_world_loaded]
        cases hfind : alistFind s.chunks (world_to_chunk_local target).1 with
        | none => exact h
        | some ch =>
            obtain ⟨h1, h2, h3, h4, h5⟩ := h
            have hcc := alistFind_some_contains _ _ _ hfind
            refine ⟨h1, h2, ?_, ?_, h5⟩
            · intro c hc
              rcases alistContains_insert_imp _ _ _ c hc with rfl | hc'
              · exact h3 _ hcc
              · exact h3 c hc'
            · intro c hc
              rcases alistContains_insert_imp _ _ _ c hc with rfl | hc'
              · exact h4 _ hcc
              · exact h4 c hc'
      · have : tb.is_interactable = false := by
          cases hv : tb.is_interactable
          · rfl
          · exact absurd hv hint
        simp only [this, Bool.not_false, if_true]
        exact h

/-- Every state reachable by the streaming scheduler's operations satisfies
the partition invariant. -/
theorem StoreInv_stream_reachable (hAt : Int → Int → Int) (s : WorldState)
    (h : Relation.ReflTransGen (StreamStep hAt) WorldState.new s) : StoreInv s := by
  induction h with
  | refl => exact StoreInv_new
  | tail hsteps hstep ih =>
      cases hstep with
      | sync needed => exact StoreInv_sync _ needed ih
      | enqueue => exact StoreInv_enqueue _ ih
      | evict => exact StoreInv_evict _ ih
      | spawnTasks => exact StoreInv_spawnTasks _ ih
      | pollMerge done => exact StoreInv_pollMerge hAt _ done ih
      | breakB target => exact StoreInv_break _ target ih

/-- C6 (amended): in every state reachable from the initial world state by
the streaming scheduler's operations (needed-set sync, enqueue, build-task
spawn, poll/merge, eviction, break), each chunk coordinate appears in at
most one of the loaded-chunk map, the pending queue, and the in-flight map;
the place/ensure_chunk (and settle) path is excluded because it inserts a
loaded chunk without consulting pending/in-flight. -/
theorem C6_store_partition_amended (hAt : Int → Int → Int) (s : WorldState)
    (h : Relation.ReflTransGen (StreamStep hAt) WorldState.new s) :
    ∀ c : IVec3,
      ¬(alistContains s.chunks c = true ∧ c ∈ s.pending) ∧
      ¬(alistContains s.chunks c = true ∧ c ∈ s.inFlight) ∧
      ¬(c ∈ s.pending ∧ c ∈ s.inFlight) := by
  obtain ⟨_, _, h3, h4, h5⟩ := StoreInv_stream_reachable hAt s h
  intro c
  exact ⟨fun ⟨hc, hp⟩ => h3 c hc hp, fun ⟨hc, hf⟩ => h4 c hc hf,
    fun ⟨hp, hf⟩ => h5 c hp hf⟩

/-- A terrain height function for concrete runs (external collaborator). -/
def flatHeight : Int → Int → Int := fun _ _ => 0

/-- World state reached by: sync the needed set to `{(0,0,0)}`, enqueue it,
then place-driven `ensure_chunk` at the same coordinate. -/
def c6BadState : WorldState :=
  ((WorldState.new.sync_needed_set [⟨0, 0, 0⟩]).enqueue_needed_chunks).ensure_chunk
    flatHeight ⟨0, 0, 0⟩

/-- C6 counterexample: the state reached by sync `{(0,0,0)}` → enqueue →
ensure_chunk `(0,0,0)` is reachable by the store's operations as listed in
the claim, yet coordinate `(0,0,0)` is simultaneously in the loaded-chunk
map and in the pending queue: `ensure_chunk` inserts without removing the
pending entry. -/
theorem C6_store_partition_counterexample :
    Relation.ReflTransGen (WStep flatHeight) WorldState.new c6BadState ∧
    alistContains c6BadState.chunks ⟨0, 0, 0⟩ = true ∧
    (⟨0, 0, 0⟩ : IVec3) ∈ c6BadState.pending := by
  refine ⟨?_, ?_, ?_⟩
  · exact Relation.ReflTransGen.tail
      (Relation.ReflTransGen.tail
        (Relation.ReflTransGen.single (WStep.sync WorldState.new [⟨0, 0, 0⟩]))
        (WStep.enqueue _))
      (WStep.ensure _ ⟨0, 0, 0⟩)
  · decide
  · decide

/-- C6 witness: the amended invariant evaluated at the initial state (zero
streaming steps) at coordinate `(0,0,0)`. -/
theorem C6_store_partition_amended_witness :
    ¬(alistContains WorldState.new.chunks ⟨0, 0, 0⟩ = true ∧
        (⟨0, 0, 0⟩ : IVec3) ∈ WorldState.new.pending) ∧
    ¬(alistContains WorldState.new.chunks ⟨0, 0, 0⟩ = true ∧
        (⟨0, 0, 0⟩ : IVec3) ∈ WorldState.new.inFlight) ∧
    ¬((⟨0, 0, 0⟩ : IVec3) ∈ WorldState.new.pending ∧
        (⟨0, 0, 0⟩ : IVec3) ∈ WorldState.new.inFlight) :=
  C6_store_partition_amended flatHeight WorldState.new Relation.ReflTransGen.refl ⟨0, 0, 0⟩

/-- Merging finished results leaves the needed set unchanged. -/
theorem apply_needed_eq (s : WorldState) (finished : List ChunkBuildOutput) :
    (s.apply_finished_chunk_results finished).needed = s.needed := by
  rw [WorldState.apply_finished_chunk_results]
  refine foldl_inv (fun s' => s'.needed = s.needed) _ ?_ finished s rfl
  intro s' r hs'
  by_cases hacc : s'.should_accept_finished_chunk r.coord = true
  · rw [if_pos hacc]; exact hs'
  · rw [if_neg hacc]; exact hs'

/-- Merging finished results leaves the loaded-chunk map unchanged at every
coordinate outside the needed set. -/
theorem apply_find_not_needed (finished : List ChunkBuildOutput) :
    ∀ (s : WorldState) (c : IVec3), c ∉ s.needed →
    alistFind (s.apply_finished_chunk_results finished).chunks c = alistFind s.chunks c := by
  induction finished with
  | nil => intro s c _; rfl
  | cons r rest ih =>
      intro s c hc
      rw [WorldState.apply_finished_chunk_results, List.foldl_cons,
        ← WorldState.apply_finished_chunk_results]
      by_cases hacc : s.should_accept_finished_chunk r.coord = true
      · rw [if_pos hacc]
        rw [WorldState.should_accept_finished_chunk, decide_eq_true_eq] at hacc
        have hne : r.coord ≠ c := fun hcon => hc (hcon ▸ hacc)
        rw [ih (s.insert_loaded_chunk r.coord r.chunk) c hc]
        exact alistFind_insert_ne s.chunks r.coord c r.chunk (fun hcon => hne hcon.symm)
      · rw [if_neg hacc]
        exact ih s c hc

/-- Merging finished results leaves the loaded-chunk map unchanged at every
coordinate none of them carries. -/
theorem apply_find_untouched (finished : List ChunkBuildOutput) :
    ∀ (s : WorldState) (c : IVec3), (∀ r ∈ finished, r.coord ≠ c) →
    alistFind (s.apply_finished_chunk_results finished).chunks c = alistFind s.chunks c := by
  induction finished with
  | nil => intro s c _; rfl
  | cons r rest ih =>
      intro s c hc
      rw [WorldState.apply_finished_chunk_results, List.foldl_cons,
        ← WorldState.apply_finished_chunk_results]
      by_cases hacc : s.should_accept_finished_chunk r.coord = true
      · rw [if_pos hacc]
        rw [ih (s.insert_loaded_chunk r.coord r.chunk) c
          (fun x hx => hc x (List.mem_cons_of_mem r hx))]
        exact alistFind_insert_ne s.chunks r.coord c r.chunk
          (fun hcon => hc r (List.mem_cons_self r rest) hcon.symm)
      · rw [if_neg hacc]
        exact ih s c (fun x hx => hc x (List.mem_cons_of_mem r hx))

/-- A still-needed finished result is stored under its coordinate. -/
theorem apply_find_accepted (finished : List ChunkBuildOutput) :
    ∀ (s : WorldState) (r : ChunkBuildOutput),
    (finished.map ChunkBuildOutput.coord).Nodup → r ∈ finished → r.coord ∈ s.needed →
    alistFind (s.apply_finished_chunk_results finished).chunks r.coord = some r.chunk := by
  induction finished with
  | nil => intro s r _ hm _; exact absurd hm (List.not_mem_nil r)
  | cons hd rest ih =>
      intro s r hnd hm hneed
      rw [List.map_cons, List.nodup_cons] at hnd
      obtain ⟨hnotin, hnd2⟩ := hnd
      rw [WorldState.apply_finished_chunk_results, List.foldl_cons,
        ← WorldState.apply_finished_chunk_results]
      rcases List.mem_cons.1 hm with rfl | hm
      · have hacc : s.should_accept_finished_chunk r.coord = true := by
          rw [WorldState.should_accept_finished_chunk]
          exact decide_eq_true hneed
        rw [if_pos hacc]
        rw [apply_find_untouched rest (s.insert_loaded_chunk r.coord r.chunk) r.coord
          (fun x hx hcon => hnotin (hcon ▸ List.mem_map_of_mem ChunkBuildOutput.coord hx))]
        exact alistFind_insert_self s.chunks r.coord r.chunk
      · by_cases hacc : s.should_accept_finished_chunk hd.coord = true
        · rw [if_pos hacc]
          exact ih (s.insert_loaded_chunk hd.coord hd.chunk) r hnd2 hm hneed
        · rw [if_neg hacc]
          exact ih s r hnd2 hm hneed

/-- C8: merging finished background builds inserts a result into the
loaded-chunk map exactly when its coordinate is still in the needed set —
a still-needed result becomes the stored chunk under its coordinate, while a
result whose coordinate dropped out of the needed set is discarded, leaving
the loaded-chunk map unchanged at that coordinate (and the needed set itself
is never modified by the merge). -/
theorem C8_finished_merge (s : WorldState) (finished : List ChunkBuildOutput)
    (hnd : (finished.map ChunkBuildOutput.coord).Nodup) :
    (∀ c : IVec3, c ∉ s.needed →
      alistFind (s.apply_finished_chunk_results finished).chunks c =
        alistFind s.chunks c) ∧
    (∀ r ∈ finished, r.coord ∈ s.needed →
      alistFind (s.apply_finished_chunk_results finished).chunks r.coord = some r.chunk) ∧
    (s.apply_finished_chunk_results finished).needed = s.needed :=
  ⟨fun c hc => apply_find_not_needed finished s c hc,
   fun r hm hneed => apply_find_accepted finished s r hnd hm hneed,
   apply_needed_eq s finished⟩

/-- World whose needed set holds only the origin chunk. -/
def c8ExampleState : WorldState := { WorldState.new with needed := [⟨0, 0, 0⟩] }

/-- Finished builds for the origin chunk (still needed) and for `(5,5,5)`
(no longer needed). -/
def c8Finished : List ChunkBuildOutput :=
  [⟨⟨0, 0, 0⟩, Chunk.new_empty⟩, ⟨⟨5, 5, 5⟩, Chunk.new_empty⟩]

/-- C8 witness: the merge theorem applied to one still-needed and one
dropped coordinate. -/
theorem C8_finished_merge_witness :
    alistFind (c8ExampleState.apply_finished_chunk_results c8Finished).chunks ⟨5, 5, 5⟩ =
      alistFind c8ExampleState.chunks ⟨5, 5, 5⟩ ∧
    alistFind (c8ExampleState.apply_finished_chunk_results c8Finished).chunks ⟨0, 0, 0⟩ =
      some Chunk.new_empty :=
  ⟨(C8_finished_merge c8ExampleState c8Finished (by decide)).1 ⟨5, 5, 5⟩ (by decide),
   (C8_finished_merge c8ExampleState c8Finished (by decide)).2.1
     ⟨⟨0, 0, 0⟩, Chunk.new_empty⟩ (List.mem_cons_self _ _) (by decide)⟩

/-- The spawn loop starts at most `LOADS_PER_FRAME - started` further builds. -/
theorem spawnLoop_length_le :
    ∀ (k : Nat) (s : WorldState) (started : Nat), LOADS_PER_FRAME - started ≤ k →
    (spawnLoop s started).inFlight.length ≤
      s.inFlight.length + (LOADS_PER_FRAME - started) := by
  intro k
  induction k with
  | zero =>
      intro s started hk
      have hcs : s.can_start_chunk_build started = false := by
        rw [WorldState.can_start_chunk_build]
        have : ¬ (started < LOADS_PER_FRAME) := by omega
        simp [this]
      rw [spawnLoop, dif_neg (by rw [hcs]; exact Bool.false_ne_true)]
      omega
  | succ n ih =>
      intro s started hk
      by_cases hcs : s.can_start_chunk_build started = true
      · rw [spawnLoop, dif_pos hcs]
        have hlt : started < LOADS_PER_FRAME := by
          rw [WorldState.can_start_chunk_build] at hcs
          simp only [Bool.and_eq_true, decide_eq_true_eq] at hcs
          exact hcs.1.1
        cases hp : s.pending with
        | nil =>
            rw [WorldState.can_start_chunk_build, hp] at hcs
            simp at hcs
        | cons coord rest =>
            show (spawnLoop { s with pending := rest, inFlight := keyInsert coord s.inFlight }
              (started + 1)).inFlight.length ≤
              s.inFlight.length + (LOADS_PER_FRAME - started)
            have := ih { s with pending := rest, inFlight := keyInsert coord s.inFlight }
              (started + 1) (by omega)
            have hki := keyInsert_length coord s.inFlight
            simp only at this
            omega
      · rw [spawnLoop, dif_neg hcs]
        omega

/-- The spawn loop never pushes the in-flight count above `MAX_IN_FLIGHT`. -/
theorem spawnLoop_max_le :
    ∀ (k : Nat) (s : WorldState) (started : Nat), LOADS_PER_FRAME - started ≤ k →
    s.inFlight.length ≤ MAX_IN_FLIGHT →
    (spawnLoop s started).inFlight.length ≤ MAX_IN_FLIGHT := by
  intro k
  induction k with
  | zero =>
      intro s started hk hle
      have hcs : s.can_start_chunk_build started = false := by
        rw [WorldState.can_start_chunk_build]
        have : ¬ (started < LOADS_PER_FRAME) := by omega
        simp [this]
      rw [spawnLoop, dif_neg (by rw [hcs]; exact Bool.false_ne_true)]
      exact hle
  | succ n ih =>
      intro s started hk hle
      by_cases hcs : s.can_start_chunk_build started = true
      · rw [spawnLoop, dif_pos hcs]
        have hbounds : started < LOADS_PER_FRAME ∧ s.inFlight.length < MAX_IN_FLIGHT := by
          rw [WorldState.can_start_chunk_build] at hcs
          simp only [Bool.and_eq_true, decide_eq_true_eq] at hcs
          exact ⟨hcs.1.1, hcs.1.2⟩
        cases hp : s.pending with
        | nil =>
            rw [WorldState.can_start_chunk_build, hp] at hcs
            simp at hcs
        | cons coord rest =>
            show (spawnLoop { s with pending := rest, inFlight := keyInsert coord s.inFlight }
              (started + 1)).inFlight.length ≤ MAX_IN_FLIGHT
            refine ih _ (started + 1) (by omega) ?_
            have hki := keyInsert_length coord s.inFlight
            simp only
            omega
      · rw [spawnLoop, dif_neg hcs]
        exact hle

/-- Enqueueing changes only the pending queue. -/
theorem enqueue_inFlight_eq (s : WorldState) :
    s.enqueue_needed_chunks.inFlight = s.inFlight := by
  rw [WorldState.enqueue_needed_chunks]
  refine foldl_inv (fun s' => s'.inFlight = s.inFlight) _ ?_ s.needed s rfl
  intro s' coord hs'
  by_cases hsc : s'.is_chunk_scheduled_or_loaded coord = true
  · rw [if_pos hsc]; exact hs'
  · rw [if_neg hsc]; exact hs'

/-- Eviction changes only the loaded-chunk map. -/
theorem evict_inFlight_eq (s : WorldState) : s.evict_unneeded.inFlight = s.inFlight := by
  rw [WorldState.evict_unneeded]
  exact foldl_inv (fun s' => s'.inFlight = s.inFlight) (fun s' c => s'.unload_chunk c)
    (fun s' c hs' => hs') s.collect_unneeded_loaded_chunks s rfl

/-- Merging finished results changes only the loaded-chunk map. -/
theorem apply_inFlight_eq (s : WorldState) (finished : List ChunkBuildOutput) :
    (s.apply_finished_chunk_results finished).inFlight = s.inFlight := by
  rw [WorldState.apply_finished_chunk_results]
  refine foldl_inv (fun s' => s'.inFlight = s.inFlight) _ ?_ finished s rfl
  intro s' r hs'
  by_cases hacc : s'.should_accept_finished_chunk r.coord = true
  · rw [if_pos hacc]; exact hs'
  · rw [if_neg hacc]; exact hs'

/-- Breaking changes only the loaded-chunk map. -/
theorem break_inFlight_eq (s : WorldState) (target : IVec3) :
    (s.break_block target).2.1.inFlight = s.inFlight := by
  rw [WorldState.break_block]
  cases hgb : s.get_block_world target with
  | none => rfl
  | some tb =>
      by_cases hint : tb.is_interactable = true
      · simp only [hint, Bool.not_true, Bool.false_eq_true, if_false]
        rw [WorldState.set_block_world_loaded]
        cases hfind : alistFind s.chunks (world_to_chunk_local target).1 <;> rfl
      · have hf : tb.is_interactable = false := by
          cases hv : tb.is_interactable
          · rfl
          · exact absurd hv hint
        simp only [hf, Bool.not_false, if_true]

/-- Synchronous chunk generation changes only the loaded-chunk map. -/
theorem ensure_inFlight_eq (hAt : Int → Int → Int) (s : WorldState) (coord : IVec3) :
    (s.ensure_chunk hAt coord).inFlight = s.inFlight := by
  rw [WorldState.ensure_chunk]
  by_cases hc : alistContains s.chunks coord = true
  · rw [if_pos hc]
  · rw [if_neg hc]

/-- The ensured write changes only the loaded-chunk map. -/
theorem ensured_inFlight_eq (hAt : Int → Int → Int) (s : WorldState) (p : IVec3)
    (b : Block) : (s.set_block_world_ensured hAt p b).2.inFlight = s.inFlight := by
  rw [WorldState.set_block_world_ensured, WorldState.set_block_world_loaded]
  cases hfind : alistFind (s.ensure_chunk hAt (world_to_chunk_local p).1).chunks
      (world_to_chunk_local p).1 with
  | none => exact ensure_inFlight_eq hAt s (world_to_chunk_local p).1
  | some ch => exact ensure_inFlight_eq hAt s (world_to_chunk_local p).1

/-- Placement changes only the loaded-chunk map. -/
theorem place_inFlight_eq (hAt : Int → Int → Int) (s : WorldState)
    (player : Option (Vec3q × Player)) (forward : Vec3q) (target : IVec3) (b : Block) :
    (s.place_block hAt player forward target b).2.1.inFlight = s.inFlight := by
  have hcommit : ∀ b' : Block, (placeCommit hAt s target b').2.1.inFlight = s.inFlight := by
    intro b'
    rw [placeCommit]
    cases hr : (s.set_block_world_ensured hAt target b').1 with
    | none => exact ensured_inFlight_eq hAt s target b'
    | some cc => exact ensured_inFlight_eq hAt s target b'
  cases player with
  | none => exact hcommit b
  | some pp =>
      show (if pp.2.intersects_block pp.1 target = true then
          ((false, s, []) : Bool × WorldState × List IVec3)
        else placeCommit hAt s target
          (b.with_front_from_direction (-forward))).2.1.inFlight = s.inFlight
      by_cases hov : pp.2.intersects_block pp.1 target = true
      · rw [if_pos hov]
      · rw [if_neg hov]
        exact hcommit _

/-- Every store operation keeps the in-flight count within `MAX_IN_FLIGHT`. -/
theorem inflight_bound_step (hAt : Int → Int → Int) (s s' : WorldState)
    (hstep : WStep hAt s s') (h : s.inFlight.length ≤ MAX_IN_FLIGHT) :
    s'.inFlight.length ≤ MAX_IN_FLIGHT := by
  cases hstep with
  | sync needed =>
      rw [WorldState.sync_needed_set]
      by_cases heq : needed = s.needed
      · rw [if_pos heq]; exact h
      · rw [if_neg heq]
        exact le_trans (List.length_filter_le _ s.inFlight) h
  | enqueue => rw [enqueue_inFlight_eq]; exact h
  | evict => rw [evict_inFlight_eq]; exact h
  | spawnTasks => exact spawnLoop_max_le LOADS_PER_FRAME s 0 (by omega) h
  | pollMerge done =>
      rw [apply_inFlight_eq]
      exact le_trans (List.length_filter_le _ s.inFlight) h
  | breakB target => rw [break_inFlight_eq]; exact h
  | placeB player forward target b => rw [place_inFlight_eq]; exact h
  | ensure coord => rw [ensure_inFlight_eq]; exact h
  | settle landing b => rw [WorldState.settle_falling_block, ensured_inFlight_eq]; exact h

/-- C9: the task-spawn step starts at most `LOADS_PER_FRAME` new builds per
scheduling tick; in every state reachable by the store's operations the
in-flight build count never exceeds `MAX_IN_FLIGHT`; and when the combined
gate (frame budget, concurrency bound, non-empty pending queue) fails at
loop entry no build is started at all. -/
theorem C9_spawn_bounds (hAt : Int → Int → Int) :
    (∀ s : WorldState,
      s.spawn_chunk_build_tasks.inFlight.length ≤ s.inFlight.length + LOADS_PER_FRAME) ∧
    (∀ s : WorldState, Relation.ReflTransGen (WStep hAt) WorldState.new s →
      s.inFlight.length ≤ MAX_IN_FLIGHT) ∧
    (∀ s : WorldState, s.can_start_chunk_build 0 = false →
      s.spawn_chunk_build_tasks = s) := by
  refine ⟨?_, ?_, ?_⟩
  · intro s
    have := spawnLoop_length_le LOADS_PER_FRAME s 0 (by omega)
    rw [WorldState.spawn_chunk_build_tasks]
    omega
  · intro s h
    induction h with
    | refl => decide
    | tail hsteps hstep ih => exact inflight_bound_step hAt _ _ hstep ih
  · intro s hcs
    rw [WorldState.spawn_chunk_build_tasks, spawnLoop,
      dif_neg (by rw [hcs]; exact Bool.false_ne_true)]

/-- C9 witness: the reachability bound at the initial state (zero steps) and
the no-start gate on the initial state's empty pending queue. -/
theorem C9_spawn_bounds_witness :
    WorldState.new.inFlight.length ≤ MAX_IN_FLIGHT ∧
    WorldState.new.spawn_chunk_build_tasks = WorldState.new :=
  ⟨(C9_spawn_bounds flatHeight).2.1 WorldState.new Relation.ReflTransGen.refl,
   (C9_spawn_bounds flatHeight).2.2 WorldState.new (by decide)⟩

end BevyCraft
